import Mathlib

/-!
Verification of the coffee-shop drinks API (`src/backend/src/api.py`) against its
natural-language specification.

The embedding works over `List Char` strings so that every definition is
executable and kernel-reducible.  JSON / Python values are modelled by `JVal`.
The five Flask route handlers of `api.py` are translated directly; the ORM
session is modelled by an explicit `Session` (committed rows plus the session's
working set) and a trace of rollback/close events.  The drink model
(`Drink.short`, `Drink.long`, insert/update/delete semantics) and the token
verifier (`requires_auth`) live in repository files that are not part of the
provided sources, so those definitions are modelled from the specification and
are marked as such in their doc comments.
-/

/-- Character strings, as explicit character lists (so everything reduces). -/
abbrev Str := List Char

/-- A JSON value, which is also the shape of the Python value obtained from
`request.get_json()`: strings, integers, booleans, null, arrays, objects
(insertion-ordered key/value lists, as Python dicts preserve order).
Numbers are restricted to integers; no claim involves fractional literals. -/
inductive JVal where
  | str (s : Str)
  | num (n : Int)
  | bool (b : Bool)
  | null
  | arr (xs : List JVal)
  | obj (fs : List (Str × JVal))

/-- The apostrophe character (written via its code to keep source plain). -/
def apos : Char := Char.ofNat 39

/-- The double-quote character. -/
def dq : Char := Char.ofNat 34

/-- The backslash character. -/
def bslash : Char := Char.ofNat 92

/-- The opening-brace character. -/
def lbrace : Char := Char.ofNat 123

/-- The closing-brace character. -/
def rbrace : Char := Char.ofNat 125

/-- The decimal digit character for `n % 10` style arguments below ten. -/
def digitChar : Nat → Char
  | 0 => '0'
  | 1 => '1'
  | 2 => '2'
  | 3 => '3'
  | 4 => '4'
  | 5 => '5'
  | 6 => '6'
  | 7 => '7'
  | 8 => '8'
  | _ => '9'

/-- Decimal digits of `n`, most significant first; `fuel` bounds recursion
(structural, so the kernel can evaluate it). -/
def natDigitsAux : Nat → Nat → Str
  | 0, _ => []
  | fuel + 1, n =>
    if n < 10 then [digitChar n]
    else natDigitsAux fuel (n / 10) ++ [digitChar (n % 10)]

/-- Decimal representation of a natural number (Python's `str`/`repr` on it). -/
def natDigits (n : Nat) : Str := natDigitsAux (n + 1) n

/-- Python `repr` escaping of a single character inside a `q`-quoted string
literal: backslashes and the quote character are escaped.  (Control-character
escapes are not modelled; all claims range over printable text.) -/
def pyEscChar (q : Char) (c : Char) : Str :=
  if c = bslash then [bslash, bslash] else if c = q then [bslash, q] else [c]

/-- Python `repr` escaping of a whole string body. -/
def pyEsc (q : Char) : Str → Str
  | [] => []
  | c :: cs => pyEscChar q c ++ pyEsc q cs

/-- Python `repr` of a string: single quotes by default, double quotes when the
string contains an apostrophe but no double quote. -/
def pyReprStr (s : Str) : Str :=
  if apos ∈ s ∧ dq ∉ s then dq :: pyEsc dq s ++ [dq]
  else apos :: pyEsc apos s ++ [apos]

mutual
/-- Python `repr` of a JSON-shaped value: dict/list display syntax with
single-quoted strings, `True`/`False`/`None` keywords, decimal integers. -/
def pyRepr : JVal → Str
  | .str s => pyReprStr s
  | .num (Int.ofNat m) => natDigits m
  | .num (Int.negSucc m) => '-' :: natDigits (m + 1)
  | .bool true => ['T', 'r', 'u', 'e']
  | .bool false => ['F', 'a', 'l', 's', 'e']
  | .null => ['N', 'o', 'n', 'e']
  | .arr xs => '[' :: pyReprItems xs ++ [']']
  | .obj fs => lbrace :: pyReprFields fs ++ [rbrace]

/-- List items of a Python `repr`, joined by a comma and a space. -/
def pyReprItems : List JVal → Str
  | [] => []
  | [x] => pyRepr x
  | x :: y :: tl => pyRepr x ++ ',' :: ' ' :: pyReprItems (y :: tl)

/-- Dict fields of a Python `repr`: `key: value` joined by a comma and space. -/
def pyReprFields : List (Str × JVal) → Str
  | [] => []
  | [(k, v)] => pyReprStr k ++ ':' :: ' ' :: pyRepr v
  | (k, v) :: kv :: tl =>
    pyReprStr k ++ ':' :: ' ' :: pyRepr v ++ ',' :: ' ' :: pyReprFields (kv :: tl)
end

/-- Python `str()` of a value: the identity on strings, `repr` otherwise.
This is what `str(res.get('recipe', None))` computes in `api.py`. -/
def pyStr : JVal → Str
  | .str s => s
  | .num n => pyRepr (.num n)
  | .bool b => pyRepr (.bool b)
  | .null => pyRepr .null
  | .arr xs => pyRepr (.arr xs)
  | .obj fs => pyRepr (.obj fs)

/-- The quote-rewriting step of `api.py`: `.replace('\x27', '\x22')`, i.e. every
apostrophe becomes a double quote (single-character replace is a map). -/
def normalizeQuotes (s : Str) : Str := s.map (fun c => if c = apos then dq else c)

/-- JSON whitespace test. -/
def isWsCh (c : Char) : Bool :=
  c = ' ' || c.toNat = 9 || c.toNat = 10 || c.toNat = 13

/-- Drop leading JSON whitespace. -/
def skipWs : Str → Str
  | c :: cs => if isWsCh c then skipWs cs else c :: cs
  | [] => []

/-- ASCII decimal digit test. -/
def isDigitCh (c : Char) : Bool := 48 ≤ c.toNat && c.toNat ≤ 57

/-- JSON string escape codes (the subset without `u`-escapes). -/
def jsonUnescape (c : Char) : Option Char :=
  if c = dq then some dq
  else if c = bslash then some bslash
  else if c = '/' then some '/'
  else if c = 'n' then some (Char.ofNat 10)
  else if c = 't' then some (Char.ofNat 9)
  else if c = 'r' then some (Char.ofNat 13)
  else none

/-- Modelled from the spec: JSON deserialization ("recipe must deserialize to a
value representation"), as used by the drink model's `short`/`long`; the
concrete deserializer (the standard library's) is not part of the sources.
This parses a JSON string body after its opening quote. -/
def parseStrAux : Str → Option (Str × Str)
  | [] => none
  | c :: cs =>
    if c = dq then some ([], cs)
    else if c = bslash then
      match cs with
      | [] => none
      | e :: cs2 =>
        match jsonUnescape e, parseStrAux cs2 with
        | some u, some (s, r) => some (u :: s, r)
        | _, _ => none
    else
      match parseStrAux cs with
      | some (s, r) => some (c :: s, r)
      | none => none

/-- Accumulate a run of decimal digits into a number. -/
def parseNatAux : Nat → Str → Nat × Str
  | acc, c :: cs =>
    if isDigitCh c then parseNatAux (acc * 10 + (c.toNat - 48)) cs else (acc, c :: cs)
  | acc, [] => (acc, [])

/-- Parse a nonempty run of decimal digits. -/
def parseNatTok : Str → Option (Nat × Str)
  | c :: cs => if isDigitCh c then some (parseNatAux 0 (c :: cs)) else none
  | [] => none

mutual
/-- Modelled from the spec: a JSON value parser (fuel-structural).  Numbers are
integer-only, which covers every value these claims range over. -/
def parseVal : Nat → Str → Option (JVal × Str)
  | 0, _ => none
  | fuel + 1, input =>
    match skipWs input with
    | [] => none
    | c :: cs =>
      if c = dq then
        match parseStrAux cs with
        | some (s, r) => some (.str s, r)
        | none => none
      else if c = '[' then
        match skipWs cs with
        | [] => none
        | c2 :: r2 =>
          if c2 = ']' then some (.arr [], r2)
          else
            match parseArrItems fuel (c2 :: r2) with
            | some (vs, r) => some (.arr vs, r)
            | none => none
      else if c = lbrace then
        match skipWs cs with
        | [] => none
        | c2 :: r2 =>
          if c2 = rbrace then some (.obj [], r2)
          else
            match parseObjItems fuel (c2 :: r2) with
            | some (fs, r) => some (.obj fs, r)
            | none => none
      else if c = 't' then
        match cs with
        | 'r' :: 'u' :: 'e' :: r => some (.bool true, r)
        | _ => none
      else if c = 'f' then
        match cs with
        | 'a' :: 'l' :: 's' :: 'e' :: r => some (.bool false, r)
        | _ => none
      else if c = 'n' then
        match cs with
        | 'u' :: 'l' :: 'l' :: r => some (.null, r)
        | _ => none
      else if c = '-' then
        match parseNatTok cs with
        | some (m, r) => some (.num (-(m : Int)), r)
        | none => none
      else
        match parseNatTok (c :: cs) with
        | some (m, r) => some (.num (Int.ofNat m), r)
        | none => none

/-- One-or-more comma-separated array items (the empty array is handled by
`parseVal` directly). -/
def parseArrItems : Nat → Str → Option (List JVal × Str)
  | 0, _ => none
  | fuel + 1, input =>
    match parseVal fuel input with
    | none => none
    | some (v, r) =>
      match skipWs r with
      | ',' :: r2 =>
        match parseArrItems fuel (skipWs r2) with
        | some (vs, r3) => some (v :: vs, r3)
        | none => none
      | ']' :: r2 => some ([v], r2)
      | _ => none

/-- One-or-more comma-separated object members (the empty object is handled by
`parseVal` directly). -/
def parseObjItems : Nat → Str → Option (List (Str × JVal) × Str)
  | 0, _ => none
  | fuel + 1, input =>
    match skipWs input with
    | c :: cs =>
      if c = dq then
        match parseStrAux cs with
        | some (k, r1) =>
          match skipWs r1 with
          | ':' :: r2 =>
            match parseVal fuel r2 with
            | some (v, r3) =>
              match skipWs r3 with
              | ',' :: r4 =>
                match parseObjItems fuel (skipWs r4) with
                | some (fs, r5) => some ((k, v) :: fs, r5)
                | none => none
              | c4 :: r4 =>
                if c4 = rbrace then some ([(k, v)], r4) else none
              | [] => none
            | none => none
          | _ => none
        | none => none
      else none
    | [] => none
end

/-- Modelled from the spec: parse a complete JSON document (`json.loads`). -/
def parseJson (s : Str) : Option JVal :=
  match parseVal (s.length + 1) s with
  | some (v, r) => if skipWs r = [] then some v else none
  | none => none

/-- Ordered-object key lookup (Python `r[k]` on a dict, first occurrence). -/
def objLookup (k : Str) : List (Str × JVal) → Option JVal
  | [] => none
  | (k2, v) :: tl => if k2 = k then some v else objLookup k tl

/-- Does an object value carry the given key? -/
def hasKey (k : Str) : JVal → Bool
  | .obj fs => (objLookup k fs).isSome
  | _ => false

/-- Does a parse result denote a sequence of objects (the spec's stated shape
invariant for stored recipes)? -/
def isSeqOfObjects : Option JVal → Bool
  | some (.arr xs) => xs.all (fun v => match v with | .obj _ => true | _ => false)
  | _ => false

/-- Map a fallible projection over a list, failing if any element fails (the
behaviour of a Python list comprehension whose body may raise). -/
def optMap {α β : Type} (f : α → Option β) : List α → Option (List β)
  | [] => some []
  | a :: tl =>
    match f a, optMap f tl with
    | some b, some bs => some (b :: bs)
    | _, _ => none

/-- The key string `success`. -/
def keySuccess : Str := ['s', 'u', 'c', 'c', 'e', 's', 's']

/-- The key string `drinks`. -/
def keyDrinks : Str := ['d', 'r', 'i', 'n', 'k', 's']

/-- The key string `error`. -/
def keyError : Str := ['e', 'r', 'r', 'o', 'r']

/-- The key string `message`. -/
def keyMessage : Str := ['m', 'e', 's', 's', 'a', 'g', 'e']

/-- The key string `delete`. -/
def keyDelete : Str := ['d', 'e', 'l', 'e', 't', 'e']

/-- The key string `id`. -/
def keyId : Str := ['i', 'd']

/-- The key string `title`. -/
def keyTitle : Str := ['t', 'i', 't', 'l', 'e']

/-- The key string `recipe`. -/
def keyRecipe : Str := ['r', 'e', 'c', 'i', 'p', 'e']

/-- The key string `color`. -/
def keyColor : Str := ['c', 'o', 'l', 'o', 'r']

/-- The key string `name`. -/
def keyName : Str := ['n', 'a', 'm', 'e']

/-- The key string `parts`. -/
def keyParts : Str := ['p', 'a', 'r', 't', 's']

/-- The permission string `get:drinks-detail`. -/
def permGetDetail : Str :=
  ['g', 'e', 't', ':', 'd', 'r', 'i', 'n', 'k', 's', '-', 'd', 'e', 't', 'a', 'i', 'l']

/-- The permission string `post:drinks`. -/
def permPost : Str := ['p', 'o', 's', 't', ':', 'd', 'r', 'i', 'n', 'k', 's']

/-- The permission string `patch:drinks`. -/
def permPatch : Str := ['p', 'a', 't', 'c', 'h', ':', 'd', 'r', 'i', 'n', 'k', 's']

/-- The permission string `delete:drinks`. -/
def permDelete : Str := ['d', 'e', 'l', 'e', 't', 'e', ':', 'd', 'r', 'i', 'n', 'k', 's']

/-- A row of the drinks table: auto-assigned integer id, the stored title value
(assigned verbatim from the request, so any JSON value), and the stored recipe
text (always a string column). -/
structure Drink where
  id : Nat
  title : JVal
  recipe : Str

/-- The database session: `committed` is the persisted table, `pending` the
session's working view (equal to `committed` when no changes are in flight).
Commit persists `pending`; rollback resets it to `committed`. -/
structure Session where
  committed : List Drink
  pending : List Drink

/-- A clean session over a store. -/
def Session.clean (l : List Drink) : Session := ⟨l, l⟩

/-- Observable session lifecycle events, in chronological order. -/
inductive DbEvent where
  | rollback
  | close
deriving DecidableEq

/-- An HTTP response: status code and JSON body. -/
structure Response where
  status : Nat
  body : JVal

/-- Outcome of a mutating handler: the response, the session it leaves behind,
and the chronological rollback/close trace. -/
structure HandlerResult where
  resp : Response
  sess : Session
  events : List DbEvent

/-- The parsed JSON request body `{title?, recipe?}` as read by `res.get`. -/
structure ReqBody where
  title? : Option JVal
  recipe? : Option JVal

/-- Modelled from the spec: the drink model's `long()` projection — id, title
and the full deserialized recipe ("long (id, title, full recipe including
name)").  `none` models the exception raised when the stored recipe text does
not deserialize. -/
def Drink.long (d : Drink) : Option JVal :=
  match parseJson d.recipe with
  | some v => some (.obj [(keyId, .num (Int.ofNat d.id)), (keyTitle, d.title), (keyRecipe, v)])
  | none => none

/-- Modelled from the spec: one ingredient entry of the `short()` projection —
only `color` and `parts`, omitting `name`.  `none` models the exception raised
when the entry is not an object with those keys. -/
def shortEntry : JVal → Option JVal
  | .obj fs =>
    match objLookup keyColor fs, objLookup keyParts fs with
    | some c, some p => some (.obj [(keyColor, c), (keyParts, p)])
    | _, _ => none
  | _ => none

/-- Modelled from the spec: the drink model's `short()` projection — id, title,
and the recipe with each entry reduced to `color`/`parts`.  `none` models the
exception raised when the stored recipe does not deserialize to a sequence of
objects carrying those keys. -/
def Drink.short (d : Drink) : Option JVal :=
  match parseJson d.recipe with
  | some (.arr entries) =>
    match optMap shortEntry entries with
    | some shorts =>
      some (.obj [(keyId, .num (Int.ofNat d.id)), (keyTitle, d.title), (keyRecipe, .arr shorts)])
    | none => none
  | _ => none

/-- Default HTTP error descriptions surfaced by `abort(code)` (the web
framework's stock wording, abbreviated; the claims depend only on these being
strings). -/
def flaskDesc (code : Nat) : Str :=
  if code = 404 then ['n', 'o', 't', ' ', 'f', 'o', 'u', 'n', 'd']
  else if code = 422 then ['u', 'n', 'p', 'r', 'o', 'c', 'e', 's', 's', 'a', 'b', 'l', 'e']
  else if code = 401 then ['u', 'n', 'a', 'u', 't', 'h', 'o', 'r', 'i', 'z', 'e', 'd']
  else ['s', 'e', 'r', 'v', 'e', 'r', ' ', 'e', 'r', 'r', 'o', 'r']

/-- The uniform error body built by the `@app.errorhandler` functions:
`{"success": false, "error": code, "message": description}`. -/
def jsonError (code : Nat) (desc : Str) : JVal :=
  .obj [(keySuccess, .bool false), (keyError, .num (Int.ofNat code)), (keyMessage, .str desc)]

/-- The 422 error handler of `api.py`. -/
def unprocessable (desc : Str) : Response := ⟨422, jsonError 422 desc⟩

/-- The 404 error handler of `api.py`. -/
def not_found (desc : Str) : Response := ⟨404, jsonError 404 desc⟩

/-- The 401 error handler of `api.py`. -/
def unauthorized (desc : Str) : Response := ⟨401, jsonError 401 desc⟩

/-- The 500 error handler of `api.py`. -/
def internal_server_error (desc : Str) : Response := ⟨500, jsonError 500 desc⟩

/-- `abort(code)` routed through the registered error handlers with the default
description (also the path of an unhandled exception, which the framework turns
into a 500). -/
def abortResp (code : Nat) : Response :=
  if code = 404 then not_found (flaskDesc 404)
  else if code = 422 then unprocessable (flaskDesc 422)
  else if code = 401 then unauthorized (flaskDesc 401)
  else internal_server_error (flaskDesc 500)

/-- Modelled from the spec: the semantic content of a bearer token once
cryptographic checks are abstracted — whether the signature verified, whether
issuer/audience/expiry claims are acceptable, and the optional `permissions`
claim. -/
structure TokenInfo where
  sigValid : Bool
  claimsValid : Bool
  permsClaim : Option (List Str)

/-- Modelled from the spec: the authorization state of an inbound request —
no header, a malformed header (wrong part count or missing `Bearer` prefix),
or a bearer token. -/
inductive AuthzHeader where
  | missing
  | malformed
  | bearer (t : TokenInfo)

/-- Modelled from the spec: the token verifier's failure taxonomy. -/
inductive AuthFailure where
  | missingHeader
  | invalidHeaderFormat
  | invalidToken
  | missingPermissionsClaim
  | insufficientPermission
deriving DecidableEq

/-- Modelled from the spec: "Each failure kind maps to HTTP 401 except
`InsufficientPermission`, which maps to HTTP 403". -/
def AuthFailure.statusCode : AuthFailure → Nat
  | .insufficientPermission => 403
  | _ => 401

/-- Modelled from the spec: the descriptive message each failure surfaces. -/
def AuthFailure.desc : AuthFailure → Str
  | .missingHeader =>
    ['h', 'e', 'a', 'd', 'e', 'r', ' ', 'm', 'i', 's', 's', 'i', 'n', 'g']
  | .invalidHeaderFormat =>
    ['h', 'e', 'a', 'd', 'e', 'r', ' ', 'm', 'a', 'l', 'f', 'o', 'r', 'm', 'e', 'd']
  | .invalidToken =>
    ['t', 'o', 'k', 'e', 'n', ' ', 'i', 'n', 'v', 'a', 'l', 'i', 'd']
  | .missingPermissionsClaim =>
    ['c', 'l', 'a', 'i', 'm', ' ', 'm', 'i', 's', 's', 'i', 'n', 'g']
  | .insufficientPermission =>
    ['f', 'o', 'r', 'b', 'i', 'd', 'd', 'e', 'n']

/-- Modelled from the spec: the token verifier's check sequence — header
present and well-formed, signature and standard claims valid, `permissions`
claim present, required permission contained in it. -/
def checkAuth (h : AuthzHeader) (required : Str) : Except AuthFailure (List Str) :=
  match h with
  | .missing => .error .missingHeader
  | .malformed => .error .invalidHeaderFormat
  | .bearer t =>
    if t.sigValid && t.claimsValid then
      match t.permsClaim with
      | none => .error .missingPermissionsClaim
      | some ps => if required ∈ ps then .ok ps else .error .insufficientPermission
    else .error .invalidToken

/-- The `@app.errorhandler(AuthError)` of `api.py`: status from the failure,
body `{'success': False, 'error': status, 'message': <description>}`. -/
def auth_error (e : AuthFailure) : Response :=
  ⟨e.statusCode,
   .obj [(keySuccess, .bool false), (keyError, .num (Int.ofNat e.statusCode)),
         (keyMessage, .str e.desc)]⟩

/-- The `requires_auth` decorator around a read-only handler: verify first,
short-circuiting to the `AuthError` handler on failure. -/
def requires_auth (perm : Str) (h : AuthzHeader) (k : List Str → Response) : Response :=
  match checkAuth h perm with
  | .error e => auth_error e
  | .ok ps => k ps

/-- The `requires_auth` decorator around a mutating handler: on failure the
store is never touched (the session is returned unchanged, no events). -/
def requires_auth_db (perm : Str) (h : AuthzHeader) (sess : Session)
    (k : List Str → HandlerResult) : HandlerResult :=
  match checkAuth h perm with
  | .error e => { resp := auth_error e, sess := sess, events := [] }
  | .ok ps => k ps

/-- `Drink.query.get(pk)` key coercion: the raw path segment is interpreted as
an integer primary key; a non-numeric segment matches no row. -/
def parseId (s : Str) : Option Nat :=
  match parseNatTok s with
  | some (n, []) => some n
  | _ => none

/-- `Drink.query.get` over the session's view: first row with the given id. -/
def findDrink (l : List Drink) (i : Nat) : Option Drink :=
  l.find? (fun d => d.id = i)

/-- The auto-increment id the store assigns to a new row. -/
def nextId (l : List Drink) : Nat := (l.foldr (fun d m => max d.id m) 0) + 1

/-- Row update by primary key (the ORM flushes attribute changes to the row
with that id). -/
def updateDrink (l : List Drink) (d : Drink) : List Drink :=
  l.map (fun e => if e.id = d.id then d else e)

/-- A 200 list response `{"success": True, "drinks": drinks}`. -/
def jsonDrinksOk (entries : List JVal) : Response :=
  ⟨200, .obj [(keySuccess, .bool true), (keyDrinks, .arr entries)]⟩

/-- `GET /drinks` (public): list every row in the short projection; any
exception (a stored recipe the projection cannot process, or a failing query)
aborts with 500. -/
def get_public_short_drinks (store : List Drink) (queryRaises : Bool) : Response :=
  if queryRaises then abortResp 500
  else
    match optMap Drink.short store with
    | some entries => jsonDrinksOk entries
    | none => abortResp 500

/-- `GET /drinks-detail` (source function name): list every row in the long
projection.  The local `drinks` is modelled as `none` when unbound (the query
raised before assignment): in that case the `drinks is None` test in the
exception handler itself raises a NameError, which the framework maps to 500,
so the `abort(404)` arm below requires the variable bound to Python `None`. -/
def get_private_short_drinks (store : List Drink) (queryRaises : Bool) : Response :=
  let drinksVar : Option (Option (List Drink)) :=
    if queryRaises then none else some (some store)
  match drinksVar with
  | some (some drinks) =>
    match optMap Drink.long drinks with
    | some entries => jsonDrinksOk entries
    | none => abortResp 500
  | some none => abortResp 404
  | none => abortResp 500

/-- `POST /drinks` body handling: `title = res.get('title', None)`,
`recipe = str(res.get('recipe', None)).replace('\x27', '\x22')`, insert, return
the long projection; on a failing insert, rollback then `abort(500)`; the
session is closed in `finally` on every path.  When the insert commits but
`drink.long()` then raises, the rollback in the exception handler can no longer
undo the committed row. -/
def post_private_long_drink (body : ReqBody) (sess : Session) (commitRaises : Bool) :
    HandlerResult :=
  let title := body.title?.getD .null
  let recipe := normalizeQuotes (pyStr (body.recipe?.getD .null))
  let drink : Drink := ⟨nextId sess.pending, title, recipe⟩
  let pending2 := sess.pending ++ [drink]
  if commitRaises then
    { resp := abortResp 500, sess := ⟨sess.committed, sess.committed⟩,
      events := [.rollback, .close] }
  else
    match drink.long with
    | some entry =>
      { resp := ⟨200, .obj [(keySuccess, .bool true), (keyDrinks, .arr [entry])]⟩,
        sess := ⟨pending2, pending2⟩, events := [.close] }
    | none =>
      { resp := abortResp 500, sess := ⟨pending2, pending2⟩,
        events := [.rollback, .close] }

/-- `PATCH /drinks/<drink_id>`: look the row up; on a missing row the attribute
access raises, the handler rolls back and — since `drink` is bound to `None` —
aborts 404.  Otherwise only supplied fields are overwritten (`res.get` with the
current value as default; the recipe default passes through `str` and the quote
replace), the update is committed, and the long projection returned.  A failing
query leaves `drink` unbound, so the `drink == None` test raises and the
framework answers 500. -/
def patch_private_long_drink (body : ReqBody) (drinkId : Str) (sess : Session)
    (queryRaises commitRaises : Bool) : HandlerResult :=
  if queryRaises then
    { resp := abortResp 500, sess := ⟨sess.committed, sess.committed⟩,
      events := [.rollback, .close] }
  else
    match (parseId drinkId).bind (findDrink sess.pending) with
    | none =>
      { resp := abortResp 404, sess := ⟨sess.committed, sess.committed⟩,
        events := [.rollback, .close] }
    | some d =>
      let d2 : Drink :=
        { d with
          title := body.title?.getD d.title,
          recipe := normalizeQuotes (match body.recipe? with
            | some v => pyStr v
            | none => d.recipe) }
      let pending2 := updateDrink sess.pending d2
      if commitRaises then
        { resp := abortResp 500, sess := ⟨sess.committed, sess.committed⟩,
          events := [.rollback, .close] }
      else
        match d2.long with
        | some entry =>
          { resp := ⟨200, .obj [(keySuccess, .bool true), (keyDrinks, .arr [entry])]⟩,
            sess := ⟨pending2, pending2⟩, events := [.close] }
        | none =>
          { resp := abortResp 500, sess := ⟨pending2, pending2⟩,
            events := [.rollback, .close] }

/-- `DELETE /drinks/<drink_id>`: look the row up; on a missing row the method
call raises, the handler rolls back and aborts 404.  Otherwise the row is
deleted and committed and the handler echoes the raw path segment as
`{'success': True, 'delete': drink_id}`. -/
def delete_private_drink (drinkId : Str) (sess : Session)
    (queryRaises commitRaises : Bool) : HandlerResult :=
  if queryRaises then
    { resp := abortResp 500, sess := ⟨sess.committed, sess.committed⟩,
      events := [.rollback, .close] }
  else
    match (parseId drinkId).bind (findDrink sess.pending) with
    | none =>
      { resp := abortResp 404, sess := ⟨sess.committed, sess.committed⟩,
        events := [.rollback, .close] }
    | some d =>
      let pending2 := sess.pending.filter (fun e => e.id ≠ d.id)
      if commitRaises then
        { resp := abortResp 500, sess := ⟨sess.committed, sess.committed⟩,
          events := [.rollback, .close] }
      else
        { resp := ⟨200, .obj [(keySuccess, .bool true), (keyDelete, .str drinkId)]⟩,
          sess := ⟨pending2, pending2⟩, events := [.close] }

/-- The full `GET /drinks` route (no authentication). -/
def route_get_drinks (sess : Session) (queryRaises : Bool) : Response :=
  get_public_short_drinks sess.committed queryRaises

/-- The full `GET /drinks-detail` route: `requires_auth('get:drinks-detail')`
around the handler. -/
def route_get_drinks_detail (h : AuthzHeader) (sess : Session) (queryRaises : Bool) :
    Response :=
  requires_auth permGetDetail h (fun _ => get_private_short_drinks sess.committed queryRaises)

/-- The full `POST /drinks` route: `requires_auth('post:drinks')` around the
handler. -/
def route_post_drinks (h : AuthzHeader) (body : ReqBody) (sess : Session)
    (commitRaises : Bool) : HandlerResult :=
  requires_auth_db permPost h sess (fun _ => post_private_long_drink body sess commitRaises)

/-- The full `PATCH /drinks/<id>` route: `requires_auth('patch:drinks')` around
the handler. -/
def route_patch_drink (h : AuthzHeader) (body : ReqBody) (drinkId : Str) (sess : Session)
    (queryRaises commitRaises : Bool) : HandlerResult :=
  requires_auth_db permPatch h sess
    (fun _ => patch_private_long_drink body drinkId sess queryRaises commitRaises)

/-- The full `DELETE /drinks/<id>` route: `requires_auth('delete:drinks')`
around the handler. -/
def route_delete_drink (h : AuthzHeader) (drinkId : Str) (sess : Session)
    (queryRaises commitRaises : Bool) : HandlerResult :=
  requires_auth_db permDelete h sess
    (fun _ => delete_private_drink drinkId sess queryRaises commitRaises)

/-- One ingredient entry of a well-formed recipe: `{color, name, parts}`. -/
structure Ingredient where
  color : Str
  name : Str
  parts : Nat

/-- The JSON value a client posts for one ingredient, keys in the documented
order `color`, `name`, `parts`. -/
def ingToJVal (i : Ingredient) : JVal :=
  .obj [(keyColor, .str i.color), (keyName, .str i.name), (keyParts, .num (Int.ofNat i.parts))]

/-- The JSON value a client posts for a whole recipe: an array of ingredient
objects. -/
def recipeToJVal (r : List Ingredient) : JVal := .arr (r.map ingToJVal)

/-- A character that survives the quote-normalization round trip: printable and
neither an apostrophe, a double quote, nor a backslash. -/
def plainChar (c : Char) : Bool :=
  32 ≤ c.toNat && !(c = apos) && !(c = dq) && !(c = bslash)

/-- A string of round-trip-safe characters. -/
def plainStr (s : Str) : Bool := s.all plainChar

/-- An ingredient whose text fields are round-trip safe. -/
def goodIng (i : Ingredient) : Bool := plainStr i.color && plainStr i.name

/-- A recipe all of whose ingredients are round-trip safe. -/
def goodRecipe (r : List Ingredient) : Bool := r.all goodIng

/-- The canonical stored text of one ingredient's fields, in the exact shape
`"color": "...", "name": "...", "parts": n` that quote-normalizing the Python
repr produces. -/
def encFields (i : Ingredient) : Str :=
  dq :: keyColor ++ dq :: ':' :: ' ' :: dq :: i.color ++
  dq :: ',' :: ' ' :: dq :: keyName ++ dq :: ':' :: ' ' :: dq :: i.name ++
  dq :: ',' :: ' ' :: dq :: keyParts ++ dq :: ':' :: ' ' :: natDigits i.parts

/-- The canonical stored text of one ingredient object. -/
def encIng (i : Ingredient) : Str := lbrace :: encFields i ++ [rbrace]

/-- The canonical stored text of a nonempty recipe's items. -/
def encItems : List Ingredient → Str
  | [] => []
  | [i] => encIng i
  | i :: j :: tl => encIng i ++ ',' :: ' ' :: encItems (j :: tl)

/-- The canonical stored text of a whole recipe. -/
def encRecipe (r : List Ingredient) : Str := '[' :: encItems r ++ [']']

/-- A string free of apostrophes (the invariant of every stored recipe, since
every write passes through `normalizeQuotes`). -/
def noApos (s : Str) : Bool := s.all (fun c => !(c = apos))

/-- The `success` field of a response body. -/
def successField (r : Response) : Option JVal :=
  match r.body with
  | .obj fs => objLookup keySuccess fs
  | _ => none

/-- The `drinks` field of a response body. -/
def drinksField (r : Response) : Option JVal :=
  match r.body with
  | .obj fs => objLookup keyDrinks fs
  | _ => none

/-- The `recipe` field of a drink entry in a response body. -/
def recipeField (v : JVal) : Option JVal :=
  match v with
  | .obj fs => objLookup keyRecipe fs
  | _ => none

/-- The `id` field of a drink entry in a response body. -/
def idField (v : JVal) : Option JVal :=
  match v with
  | .obj fs => objLookup keyId fs
  | _ => none

/-- A response body is the uniform error envelope for its own status:
`{"success": false, "error": <status>, "message": <some string>}`. -/
def IsErrEnvelope (r : Response) : Prop :=
  ∃ m : Str, r.body = jsonError r.status m

/-- A bearer header that passes every verifier check and carries the listed
permissions. -/
def validBearer (ps : List Str) : AuthzHeader := .bearer ⟨true, true, some ps⟩

/-- A request carries valid authentication when its token verifies and carries
a permissions claim (the verifier's non-permission checks all pass). -/
def hasValidAuth : AuthzHeader → Bool
  | .bearer ⟨true, true, some _⟩ => true
  | _ => false

theorem plainChar_ne_apos {c : Char} (h : plainChar c = true) : c ≠ apos := by
  intro rfl_eq
  subst rfl_eq
  simp [plainChar] at h

theorem plainChar_ne_dq {c : Char} (h : plainChar c = true) : c ≠ dq := by
  intro rfl_eq
  subst rfl_eq
  simp [plainChar] at h

theorem plainChar_ne_bslash {c : Char} (h : plainChar c = true) : c ≠ bslash := by
  intro rfl_eq
  subst rfl_eq
  simp [plainChar] at h

theorem normalizeQuotes_append (s t : Str) :
    normalizeQuotes (s ++ t) = normalizeQuotes s ++ normalizeQuotes t := by
  simp [normalizeQuotes]

theorem normalizeQuotes_cons (c : Char) (s : Str) :
    normalizeQuotes (c :: s) = (if c = apos then dq else c) :: normalizeQuotes s := by
  simp [normalizeQuotes]

theorem normalizeQuotes_eq_self {s : Str} (h : ∀ c ∈ s, c ≠ apos) :
    normalizeQuotes s = s := by
  induction s with
  | nil => rfl
  | cons c tl ih =>
    rw [normalizeQuotes_cons, if_neg (h c (List.mem_cons_self c tl)),
      ih (fun x hx => h x (List.mem_cons_of_mem c hx))]

theorem normalizeQuotes_plain {s : Str} (h : plainStr s = true) :
    normalizeQuotes s = s :=
  normalizeQuotes_eq_self (fun c hc =>
    plainChar_ne_apos (by exact (List.all_eq_true.mp h c hc)))

theorem noApos_normalizeQuotes (s : Str) : noApos (normalizeQuotes s) = true := by
  induction s with
  | nil => rfl
  | cons c tl ih =>
    rw [normalizeQuotes_cons]
    simp only [noApos, List.all_cons, Bool.and_eq_true]
    refine ⟨?_, ih⟩
    by_cases hc : c = apos
    · subst hc; decide
    · simp [hc]

theorem pyEsc_plain {q : Char} {s : Str}
    (h : ∀ c ∈ s, c ≠ q ∧ c ≠ bslash) : pyEsc q s = s := by
  induction s with
  | nil => rfl
  | cons c tl ih =>
    have hc := h c (List.mem_cons_self c tl)
    simp only [pyEsc, pyEscChar, if_neg hc.2, if_neg hc.1]
    rw [ih (fun x hx => h x (List.mem_cons_of_mem c hx))]
    rfl

theorem pyReprStr_plain {s : Str} (h : plainStr s = true) :
    pyReprStr s = apos :: s ++ [apos] := by
  have hall : ∀ c ∈ s, plainChar c = true := List.all_eq_true.mp h
  have hnapos : apos ∉ s := fun hmem => plainChar_ne_apos (hall apos hmem) rfl
  rw [pyReprStr, if_neg (by simp [hnapos])]
  rw [pyEsc_plain
    (fun c hc => ⟨plainChar_ne_apos (hall c hc), plainChar_ne_bslash (hall c hc)⟩)]

theorem natDigitsAux_all_digit :
    ∀ fuel n, n < fuel → ∀ c ∈ natDigitsAux fuel n, isDigitCh c = true := by
  intro fuel
  induction fuel with
  | zero => intro n hn; omega
  | succ f ih =>
    intro n hn c hc
    by_cases h10 : n < 10
    · rw [natDigitsAux, if_pos h10] at hc
      rcases List.mem_singleton.mp hc with rfl_eq
      subst rfl_eq
      interval_cases n <;> decide
    · rw [natDigitsAux, if_neg h10] at hc
      rcases List.mem_append.mp hc with hin | hin
      · exact ih (n / 10) (by omega) c hin
      · rcases List.mem_singleton.mp hin with rfl_eq
        subst rfl_eq
        have : n % 10 < 10 := Nat.mod_lt _ (by omega)
        interval_cases h : n % 10 <;> decide

theorem natDigits_all_digit (n : Nat) : ∀ c ∈ natDigits n, isDigitCh c = true :=
  natDigitsAux_all_digit (n + 1) n (Nat.lt_succ_self n)

theorem natDigitsAux_ne_nil : ∀ fuel n, n < fuel → natDigitsAux fuel n ≠ [] := by
  intro fuel
  induction fuel with
  | zero => intro n hn; omega
  | succ f ih =>
    intro n hn
    by_cases h10 : n < 10
    · rw [natDigitsAux, if_pos h10]; simp
    · rw [natDigitsAux, if_neg h10]
      simp

theorem natDigits_ne_nil (n : Nat) : natDigits n ≠ [] :=
  natDigitsAux_ne_nil (n + 1) n (Nat.lt_succ_self n)

theorem digitVal_digitChar {n : Nat} (h : n < 10) : (digitChar n).toNat - 48 = n := by
  interval_cases n <;> decide

theorem isDigitCh_digitChar {n : Nat} (h : n < 10) : isDigitCh (digitChar n) = true := by
  interval_cases n <;> decide

theorem parseNatAux_digits :
    ∀ fuel n, n < fuel → ∀ acc rest,
      parseNatAux acc (natDigitsAux fuel n ++ rest)
        = parseNatAux (acc * 10 ^ (natDigitsAux fuel n).length + n) rest := by
  intro fuel
  induction fuel with
  | zero => intro n hn; omega
  | succ f ih =>
    intro n hn acc rest
    by_cases h10 : n < 10
    · rw [natDigitsAux, if_pos h10]
      simp only [List.singleton_append, parseNatAux, isDigitCh_digitChar h10, if_pos,
        List.length_singleton, pow_one, digitVal_digitChar h10, List.nil_append,
        List.append_nil]
      rfl
    · rw [natDigitsAux, if_neg h10]
      have hrec : n / 10 < f := by
        have := Nat.div_lt_self (by omega : 0 < n) (by omega : 1 < 10)
        omega
      rw [List.append_assoc, List.singleton_append, ih (n / 10) hrec acc _]
      have hmod : n % 10 < 10 := Nat.mod_lt _ (by omega)
      simp only [parseNatAux, isDigitCh_digitChar hmod, if_pos, digitVal_digitChar hmod,
        List.length_append, List.length_singleton]
      congr 1
      have hsplit : n = 10 * (n / 10) + n % 10 := (Nat.div_add_mod n 10).symm ▸ by omega
      set L := (natDigitsAux f (n / 10)).length with hL
      rw [pow_add, pow_one]
      ring_nf
      omega

theorem parseNatAux_stop {rest : Str} (n : Nat)
    (h : ∀ c, rest = c :: rest.tail → isDigitCh c = false) :
    parseNatAux n rest = (n, rest) := by
  cases rest with
  | nil => rfl
  | cons c tl => rw [parseNatAux, if_neg (by simp [h c rfl])]

theorem parseNatTok_digits (n : Nat) (rest : Str)
    (hrest : ∀ c, rest = c :: rest.tail → isDigitCh c = false) :
    parseNatTok (natDigits n ++ rest) = some (n, rest) := by
  obtain ⟨c, tl, hcons⟩ := List.exists_cons_of_ne_nil (natDigits_ne_nil n)
  have hdig : isDigitCh c = true := by
    apply natDigits_all_digit n
    rw [hcons]; exact List.mem_cons_self c tl
  rw [hcons, List.cons_append, parseNatTok, if_pos hdig, ← List.cons_append, ← hcons]
  have := parseNatAux_digits (n + 1) n (Nat.lt_succ_self n) 0 rest
  rw [natDigits] at *
  rw [this, Nat.zero_mul, Nat.zero_add, parseNatAux_stop n hrest]

theorem parseId_natDigits (n : Nat) : parseId (natDigits n) = some n := by
  rw [parseId]
  have := parseNatTok_digits n [] (by intro c hc; cases hc)
  rw [List.append_nil] at this
  rw [this]

theorem skipWs_not_ws {c : Char} (h : isWsCh c = false) (r : Str) :
    skipWs (c :: r) = c :: r := by
  rw [skipWs, if_neg (by simp [h])]

theorem skipWs_space (r : Str) : skipWs (' ' :: r) = skipWs r := by
  rw [skipWs, if_pos (by decide)]

theorem parseStrAux_plain {s : Str} (h : plainStr s = true) (r : Str) :
    parseStrAux (s ++ dq :: r) = some (s, r) := by
  induction s with
  | nil =>
    rw [List.nil_append, parseStrAux.eq_def]
    simp
  | cons c tl ih =>
    have hall : ∀ x ∈ c :: tl, plainChar x = true := List.all_eq_true.mp h
    have hc := hall c (List.mem_cons_self c tl)
    have htl : plainStr tl = true :=
      List.all_eq_true.mpr (fun x hx => hall x (List.mem_cons_of_mem c hx))
    rw [List.cons_append, parseStrAux.eq_def]
    simp only [if_neg (plainChar_ne_dq hc), if_neg (plainChar_ne_bslash hc), ih htl]

theorem isDigitCh_ne_apos {c : Char} (h : isDigitCh c = true) : c ≠ apos := by
  intro rfl_eq
  subst rfl_eq
  exact absurd h (by decide)

theorem normalizeQuotes_natDigits (n : Nat) :
    normalizeQuotes (natDigits n) = natDigits n :=
  normalizeQuotes_eq_self (fun c hc => isDigitCh_ne_apos (natDigits_all_digit n c hc))

theorem normalizeQuotes_pyReprStr {s : Str} (h : plainStr s = true) :
    normalizeQuotes (pyReprStr s) = dq :: (s ++ [dq]) := by
  rw [pyReprStr_plain h, List.cons_append, normalizeQuotes_cons, if_pos rfl,
    normalizeQuotes_append, normalizeQuotes_plain h]
  rfl

theorem normalizeQuotes_nil : normalizeQuotes [] = [] := rfl

theorem normalizeQuotes_encIng {i : Ingredient} (h : goodIng i = true) :
    normalizeQuotes (pyRepr (ingToJVal i)) = encIng i := by
  have hc : plainStr i.color = true := by
    have hh := h; simp only [goodIng, Bool.and_eq_true] at hh; exact hh.1
  have hn : plainStr i.name = true := by
    have hh := h; simp only [goodIng, Bool.and_eq_true] at hh; exact hh.2
  rw [show pyRepr (ingToJVal i)
    = lbrace :: (pyReprStr keyColor ++ ':' :: ' ' :: (pyReprStr i.color ++ ',' :: ' ' ::
        (pyReprStr keyName ++ ':' :: ' ' :: (pyReprStr i.name ++ ',' :: ' ' ::
          (pyReprStr keyParts ++ ':' :: ' ' :: natDigits i.parts))) ++ [rbrace])) from by
    simp [ingToJVal, pyRepr, pyReprFields]]
  simp only [normalizeQuotes_append, normalizeQuotes_cons,
    normalizeQuotes_pyReprStr (show plainStr keyColor = true by decide),
    normalizeQuotes_pyReprStr (show plainStr keyName = true by decide),
    normalizeQuotes_pyReprStr (show plainStr keyParts = true by decide),
    normalizeQuotes_pyReprStr hc, normalizeQuotes_pyReprStr hn,
    normalizeQuotes_natDigits, normalizeQuotes_nil]
  simp +decide [encIng, encFields, List.cons_append, List.append_assoc]

theorem normalizeQuotes_encItems :
    ∀ r : List Ingredient, goodRecipe r = true →
      normalizeQuotes (pyReprItems (r.map ingToJVal)) = encItems r := by
  intro r
  induction r with
  | nil => intro _; rfl
  | cons i tl ih =>
    intro h
    have hall := List.all_eq_true.mp h
    have hi : goodIng i = true := hall i (List.mem_cons_self i tl)
    have htl : goodRecipe tl = true :=
      List.all_eq_true.mpr (fun x hx => hall x (List.mem_cons_of_mem i hx))
    cases tl with
    | nil =>
      show normalizeQuotes (pyReprItems [ingToJVal i]) = encItems [i]
      rw [show pyReprItems [ingToJVal i] = pyRepr (ingToJVal i) from rfl,
        normalizeQuotes_encIng hi]
      rfl
    | cons j tl2 =>
      show normalizeQuotes (pyReprItems (ingToJVal i :: ingToJVal j :: tl2.map ingToJVal))
        = encItems (i :: j :: tl2)
      rw [show pyReprItems (ingToJVal i :: ingToJVal j :: tl2.map ingToJVal)
          = pyRepr (ingToJVal i) ++ ',' :: ' ' ::
            pyReprItems (ingToJVal j :: tl2.map ingToJVal) from rfl,
        normalizeQuotes_append, normalizeQuotes_encIng hi,
        normalizeQuotes_cons, if_neg (by decide), normalizeQuotes_cons, if_neg (by decide)]
      rw [show normalizeQuotes (pyReprItems (ingToJVal j :: tl2.map ingToJVal))
          = encItems (j :: tl2) from by
        have h2 := ih htl
        simpa using h2]
      rfl

theorem normalizeQuotes_encRecipe {r : List Ingredient} (h : goodRecipe r = true) :
    normalizeQuotes (pyStr (recipeToJVal r)) = encRecipe r := by
  rw [show pyStr (recipeToJVal r)
      = '[' :: (pyReprItems (r.map ingToJVal) ++ [']']) from rfl,
    normalizeQuotes_cons, if_neg (by decide), normalizeQuotes_append,
    normalizeQuotes_encItems r h]
  rfl

theorem isDigitCh_bounds {c : Char} (h : isDigitCh c = true) :
    48 ≤ c.toNat ∧ c.toNat ≤ 57 := by simpa [isDigitCh] using h

theorem isDigitCh_not_ws {c : Char} (h : isDigitCh c = true) : isWsCh c = false := by
  have hb := isDigitCh_bounds h
  simp only [isWsCh, Bool.or_eq_false_iff, decide_eq_false_iff_not]
  refine ⟨⟨⟨?_, ?_⟩, ?_⟩, ?_⟩ <;> intro hEq
  · rw [hEq] at hb; exact absurd hb.1 (by decide)
  · omega
  · omega
  · omega

theorem isDigitCh_ne_dq {c : Char} (h : isDigitCh c = true) : c ≠ dq := by
  intro hEq; rw [hEq] at h; exact absurd h (by decide)

theorem isDigitCh_ne_lbrack {c : Char} (h : isDigitCh c = true) : c ≠ '[' := by
  intro hEq; rw [hEq] at h; exact absurd h (by decide)

theorem isDigitCh_ne_lbrace {c : Char} (h : isDigitCh c = true) : c ≠ lbrace := by
  intro hEq; rw [hEq] at h; exact absurd h (by decide)

theorem isDigitCh_ne_t {c : Char} (h : isDigitCh c = true) : c ≠ 't' := by
  intro hEq; rw [hEq] at h; exact absurd h (by decide)

theorem isDigitCh_ne_f {c : Char} (h : isDigitCh c = true) : c ≠ 'f' := by
  intro hEq; rw [hEq] at h; exact absurd h (by decide)

theorem isDigitCh_ne_n {c : Char} (h : isDigitCh c = true) : c ≠ 'n' := by
  intro hEq; rw [hEq] at h; exact absurd h (by decide)

theorem isDigitCh_ne_minus {c : Char} (h : isDigitCh c = true) : c ≠ '-' := by
  intro hEq; rw [hEq] at h; exact absurd h (by decide)

theorem parseVal_str (f : Nat) {s : Str} (h : plainStr s = true) (rest : Str) :
    parseVal (f + 1) (dq :: (s ++ (dq :: rest))) = some (.str s, rest) := by
  show (match parseStrAux (s ++ (dq :: rest)) with
    | some (s2, r) => some (JVal.str s2, r)
    | none => none) = some (.str s, rest)
  rw [parseStrAux_plain h]

theorem parseVal_natDigits (f : Nat) (n : Nat) (rest : Str)
    (hrest : ∀ c, rest = c :: rest.tail → isDigitCh c = false) :
    parseVal (f + 1) (natDigits n ++ rest) = some (.num (Int.ofNat n), rest) := by
  obtain ⟨c, tl, hcons⟩ := List.exists_cons_of_ne_nil (natDigits_ne_nil n)
  have hdig : isDigitCh c = true := by
    apply natDigits_all_digit n
    rw [hcons]; exact List.mem_cons_self c tl
  rw [hcons, List.cons_append]
  simp only [parseVal]
  rw [skipWs_not_ws (isDigitCh_not_ws hdig)]
  simp only [if_neg (isDigitCh_ne_dq hdig), if_neg (isDigitCh_ne_lbrack hdig),
    if_neg (isDigitCh_ne_lbrace hdig), if_neg (isDigitCh_ne_t hdig),
    if_neg (isDigitCh_ne_f hdig), if_neg (isDigitCh_ne_n hdig),
    if_neg (isDigitCh_ne_minus hdig)]
  rw [← List.cons_append, ← hcons, parseNatTok_digits n rest hrest]

theorem parseVal_ws (f : Nat) (x : Str) : parseVal (f + 1) (' ' :: x) = parseVal (f + 1) x := by
  simp only [parseVal]
  rw [skipWs_space]

theorem parseObjItems_step (f : Nat) (input : Str) :
    parseObjItems (f + 1) input
      = (match skipWs input with
        | c :: cs =>
          if c = dq then
            match parseStrAux cs with
            | some (k, r1) =>
              match skipWs r1 with
              | ':' :: r2 =>
                match parseVal f r2 with
                | some (v, r3) =>
                  match skipWs r3 with
                  | ',' :: r4 =>
                    match parseObjItems f (skipWs r4) with
                    | some (fs, r5) => some ((k, v) :: fs, r5)
                    | none => none
                  | c4 :: r4 =>
                    if c4 = rbrace then some ([(k, v)], r4) else none
                  | [] => none
                | none => none
              | _ => none
            | none => none
          else none
        | [] => none) := rfl

theorem parseArrItems_step (f : Nat) (input : Str) :
    parseArrItems (f + 1) input
      = (match parseVal f input with
        | none => none
        | some (v, r) =>
          match skipWs r with
          | ',' :: r2 =>
            match parseArrItems f (skipWs r2) with
            | some (vs, r3) => some (v :: vs, r3)
            | none => none
          | ']' :: r2 => some ([v], r2)
          | _ => none) := rfl

theorem parseObjItems_last_num (f : Nat) {k : Str} (hk : plainStr k = true) (p : Nat)
    (rest : Str) :
    parseObjItems (f + 1 + 1)
        (dq :: (k ++ (dq :: ':' :: ' ' :: (natDigits p ++ (rbrace :: rest)))))
      = some ([(k, .num (Int.ofNat p))], rest) := by
  rw [parseObjItems_step, skipWs_not_ws (by decide)]
  simp +decide only [if_true, if_false]
  rw [parseStrAux_plain hk]
  simp only []
  rw [skipWs_not_ws (by decide)]
  simp only []
  rw [parseVal_ws f, parseVal_natDigits f p (rbrace :: rest)
    (by intro c hc; injection hc with h1 h2; rw [← h1]; decide)]
  simp only []
  rw [skipWs_not_ws (by decide)]
  simp +decide only [if_true, if_false]

theorem parseObjItems_cons_str (f : Nat) {k v : Str} (hk : plainStr k = true)
    (hv : plainStr v = true) (w : Str) :
    parseObjItems (f + 1 + 1)
        (dq :: (k ++ (dq :: ':' :: ' ' :: (dq :: (v ++ (dq :: ',' :: ' ' :: (dq :: w)))))))
      = (parseObjItems (f + 1) (dq :: w)).map (fun p => ((k, JVal.str v) :: p.1, p.2)) := by
  rw [parseObjItems_step, skipWs_not_ws (by decide)]
  simp +decide only [if_true, if_false]
  rw [parseStrAux_plain hk]
  simp only []
  rw [skipWs_not_ws (by decide)]
  simp only []
  rw [parseVal_ws f, parseVal_str f hv]
  simp only []
  rw [skipWs_not_ws (by decide)]
  simp only [skipWs_space, skipWs_not_ws (show isWsCh dq = false by decide)]
  cases parseObjItems (f + 1) (dq :: w) with
  | none => rfl
  | some p => rfl

theorem parseObjItems_encFields (f : Nat) {i : Ingredient} (h : goodIng i = true)
    (rest : Str) :
    parseObjItems (f + 1 + 1 + 1 + 1) (encFields i ++ (rbrace :: rest))
      = some ([(keyColor, .str i.color), (keyName, .str i.name),
               (keyParts, .num (Int.ofNat i.parts))], rest) := by
  have hc : plainStr i.color = true := by
    have hh := h; simp only [goodIng, Bool.and_eq_true] at hh; exact hh.1
  have hn : plainStr i.name = true := by
    have hh := h; simp only [goodIng, Bool.and_eq_true] at hh; exact hh.2
  have hshape : encFields i ++ (rbrace :: rest)
      = dq :: (keyColor ++ dq :: ':' :: ' ' :: dq :: (i.color ++ dq :: ',' :: ' ' :: dq ::
          (keyName ++ dq :: ':' :: ' ' :: dq :: (i.name ++ dq :: ',' :: ' ' :: dq ::
            (keyParts ++ dq :: ':' :: ' ' :: (natDigits i.parts ++ rbrace :: rest)))))) := by
    simp [encFields, List.cons_append, List.append_assoc]
  rw [hshape]
  rw [parseObjItems_cons_str (f + 1 + 1) (by decide) hc]
  rw [parseObjItems_cons_str (f + 1) (by decide) hn]
  rw [parseObjItems_last_num f (by decide) i.parts rest]
  rfl

theorem parseVal_encIng (f : Nat) {i : Ingredient} (h : goodIng i = true) (rest : Str) :
    parseVal (f + 1 + 1 + 1 + 1 + 1) (encIng i ++ rest) = some (ingToJVal i, rest) := by
  have hshape : encIng i ++ rest = lbrace :: (encFields i ++ (rbrace :: rest)) := by
    simp [encIng, List.cons_append, List.append_assoc]
  rw [hshape]
  simp only [parseVal]
  rw [skipWs_not_ws (by decide)]
  simp +decide only [if_true, if_false]
  have hfshape : ∃ w, encFields i ++ (rbrace :: rest) = dq :: w := by
    refine ⟨keyColor ++ dq :: ':' :: ' ' :: dq :: (i.color ++ dq :: ',' :: ' ' :: dq ::
      (keyName ++ dq :: ':' :: ' ' :: dq :: (i.name ++ dq :: ',' :: ' ' :: dq ::
        (keyParts ++ dq :: ':' :: ' ' :: (natDigits i.parts ++ rbrace :: rest))))), ?_⟩
    simp [encFields, List.cons_append, List.append_assoc]
  obtain ⟨w, hw⟩ := hfshape
  rw [hw, skipWs_not_ws (by decide)]
  simp +decide only [if_true, if_false]
  rw [← hw, show (f + 4 : Nat) = f + 1 + 1 + 1 + 1 from rfl,
    parseObjItems_encFields f h rest]
  rfl

theorem encItems_head (j : Ingredient) (tl : List Ingredient) :
    ∃ w, encItems (j :: tl) = lbrace :: w := by
  cases tl with
  | nil => exact ⟨encFields j ++ [rbrace], by simp [encItems, encIng, List.cons_append]⟩
  | cons k tl2 =>
    exact ⟨(encFields j ++ [rbrace]) ++ ',' :: ' ' :: encItems (k :: tl2),
      by simp [encItems, encIng, List.cons_append, List.append_assoc]⟩

theorem parseArrItems_encItems :
    ∀ (r : List Ingredient) (f : Nat) (rest : Str), goodRecipe r = true → r ≠ [] →
      r.length + 5 ≤ f →
      parseArrItems f (encItems r ++ (']' :: rest)) = some (r.map ingToJVal, rest) := by
  intro r
  induction r with
  | nil => intro f rest _ hne; exact absurd rfl hne
  | cons i tl ih =>
    intro f rest hgood _ hfuel
    have hall := List.all_eq_true.mp hgood
    have hi : goodIng i = true := hall i (List.mem_cons_self i tl)
    have htl : goodRecipe tl = true :=
      List.all_eq_true.mpr (fun x hx => hall x (List.mem_cons_of_mem i hx))
    obtain ⟨g, rfl⟩ : ∃ g, f = g + 1 := ⟨f - 1, by omega⟩
    rw [parseArrItems_step g]
    obtain ⟨g5, rfl⟩ : ∃ g5, g = g5 + 1 + 1 + 1 + 1 + 1 := ⟨g - 5, by simp at hfuel; omega⟩
    cases tl with
    | nil =>
      rw [show encItems [i] ++ (']' :: rest) = encIng i ++ (']' :: rest) from rfl,
        parseVal_encIng g5 hi (']' :: rest)]
      simp only []
      rw [skipWs_not_ws (by decide)]
      simp +decide only [if_true, if_false]
      rfl
    | cons j tl2 =>
      have hshape : encItems (i :: j :: tl2) ++ (']' :: rest)
          = encIng i ++ (',' :: ' ' :: (encItems (j :: tl2) ++ (']' :: rest))) := by
        simp [encItems, List.cons_append, List.append_assoc]
      rw [hshape, parseVal_encIng g5 hi _]
      simp only []
      rw [skipWs_not_ws (by decide)]
      simp +decide only [if_true, if_false]
      rw [skipWs_space]
      obtain ⟨w, hw⟩ := encItems_head j tl2
      rw [show skipWs (encItems (j :: tl2) ++ (']' :: rest))
          = encItems (j :: tl2) ++ (']' :: rest) from by
        rw [hw, List.cons_append, skipWs_not_ws (by decide), ← List.cons_append]]
      rw [ih (g5 + 1 + 1 + 1 + 1 + 1) rest htl (by simp) (by simp at hfuel ⊢; omega)]
      rfl

theorem encIng_len (i : Ingredient) : 4 ≤ (encIng i).length := by
  simp [encIng, encFields, List.length_append, List.length_cons]
  omega

theorem encItems_len :
    ∀ r : List Ingredient, r ≠ [] → r.length + 3 ≤ (encItems r).length := by
  intro r
  induction r with
  | nil => intro hne; exact absurd rfl hne
  | cons i tl ih =>
    intro _
    cases tl with
    | nil =>
      have := encIng_len i
      simp only [encItems, List.length_singleton]
      omega
    | cons j tl2 =>
      have h1 := encIng_len i
      have h2 := ih (by simp)
      simp only [encItems, List.length_append, List.length_cons] at h2 ⊢
      omega

theorem parseJson_encRecipe {r : List Ingredient} (h : goodRecipe r = true) :
    parseJson (encRecipe r) = some (recipeToJVal r) := by
  cases r with
  | nil => rfl
  | cons i tl =>
    have hs : encRecipe (i :: tl) = '[' :: (encItems (i :: tl) ++ (']' :: [])) := by
      simp [encRecipe, List.cons_append]
    have hlen : (i :: tl).length + 5 ≤ ('[' :: (encItems (i :: tl) ++ (']' :: []))).length := by
      have := encItems_len (i :: tl) (by simp)
      simp only [List.length_cons, List.length_append] at this ⊢
      omega
    rw [parseJson, hs]
    simp only [parseVal]
    rw [skipWs_not_ws (by decide)]
    simp +decide only [if_true, if_false]
    obtain ⟨w, hw⟩ := encItems_head i tl
    have hshape2 : encItems (i :: tl) ++ (']' :: []) = lbrace :: (w ++ (']' :: [])) := by
      rw [hw, List.cons_append]
    rw [hshape2, skipWs_not_ws (by decide)]
    simp +decide only [if_true, if_false]
    rw [← hshape2,
      parseArrItems_encItems (i :: tl) _ [] h (by simp)
        (by simp only [List.length_cons, List.length_append] at hlen ⊢; omega)]
    rfl

theorem checkAuth_validBearer {ps : List Str} {p : Str} (h : p ∈ ps) :
    checkAuth (validBearer ps) p = .ok ps := by
  simp [checkAuth, validBearer, h]

theorem noApos_chars {s : Str} (h : noApos s = true) : ∀ c ∈ s, c ≠ apos := by
  intro c hc
  have := List.all_eq_true.mp h c hc
  simpa using this

theorem normalizeQuotes_of_noApos {s : Str} (h : noApos s = true) :
    normalizeQuotes s = s :=
  normalizeQuotes_eq_self (noApos_chars h)

theorem optMap_mem {α β : Type} {f : α → Option β} :
    ∀ {l : List α} {out : List β}, optMap f l = some out →
      ∀ b ∈ out, ∃ a ∈ l, f a = some b := by
  intro l
  induction l with
  | nil =>
    intro out h b hb
    simp only [optMap, Option.some.injEq] at h
    rw [← h] at hb
    cases hb
  | cons a tl ih =>
    intro out h b hb
    rw [optMap] at h
    cases hfa : f a with
    | none => rw [hfa] at h; cases h
    | some b0 =>
      rw [hfa] at h
      cases hrec : optMap f tl with
      | none => rw [hrec] at h; cases h
      | some bs =>
        rw [hrec] at h
        simp only [Option.some.injEq] at h
        rw [← h] at hb
        rcases List.mem_cons.mp hb with rfl_eq | hmem
        · exact ⟨a, List.mem_cons_self a tl, by rw [hfa, rfl_eq]⟩
        · obtain ⟨a2, ha2, hfa2⟩ := ih hrec b hmem
          exact ⟨a2, List.mem_cons_of_mem a ha2, hfa2⟩

theorem optMap_isSome {α β : Type} {f : α → Option β} :
    ∀ {l : List α}, (∀ a ∈ l, (f a).isSome = true) → ∃ out, optMap f l = some out := by
  intro l
  induction l with
  | nil => intro _; exact ⟨[], rfl⟩
  | cons a tl ih =>
    intro h
    obtain ⟨b, hb⟩ := Option.isSome_iff_exists.mp (h a (List.mem_cons_self a tl))
    obtain ⟨bs, hbs⟩ := ih (fun x hx => h x (List.mem_cons_of_mem a hx))
    exact ⟨b :: bs, by rw [optMap, hb, hbs]⟩

theorem shortEntry_shape {x w : JVal} (h : shortEntry x = some w) :
    ∃ c p, w = .obj [(keyColor, c), (keyParts, p)] := by
  cases x with
  | obj fs =>
    rw [shortEntry] at h
    cases hc : objLookup keyColor fs with
    | none => rw [hc] at h; cases h
    | some c =>
      cases hp : objLookup keyParts fs with
      | none => rw [hc, hp] at h; cases h
      | some p =>
        rw [hc, hp] at h
        simp only [Option.some.injEq] at h
        exact ⟨c, p, h.symm⟩
  | str s => cases h
  | num n => cases h
  | bool b => cases h
  | null => cases h
  | arr xs => cases h

theorem short_shape {d : Drink} {v : JVal} (h : Drink.short d = some v) :
    ∃ items, v = .obj [(keyId, .num (Int.ofNat d.id)), (keyTitle, d.title),
        (keyRecipe, .arr items)]
      ∧ ∀ it ∈ items, ∃ c p, it = .obj [(keyColor, c), (keyParts, p)] := by
  rw [Drink.short] at h
  cases hp : parseJson d.recipe with
  | none => rw [hp] at h; cases h
  | some rec =>
    rw [hp] at h
    cases rec with
    | arr entries =>
      simp only [] at h
      cases hm : optMap shortEntry entries with
      | none => rw [hm] at h; cases h
      | some shorts =>
        rw [hm] at h
        simp only [Option.some.injEq] at h
        refine ⟨shorts, h.symm, fun it hit => ?_⟩
        obtain ⟨x, _, hx⟩ := optMap_mem hm it hit
        exact shortEntry_shape hx
    | str s => cases h
    | num n => cases h
    | bool b => cases h
    | null => cases h
    | obj fs => cases h

theorem long_shape {d : Drink} {v : JVal} (h : Drink.long d = some v) :
    ∃ rec, parseJson d.recipe = some rec
      ∧ v = .obj [(keyId, .num (Int.ofNat d.id)), (keyTitle, d.title), (keyRecipe, rec)] := by
  rw [Drink.long] at h
  cases hp : parseJson d.recipe with
  | none => rw [hp] at h; cases h
  | some rec =>
    rw [hp] at h
    simp only [Option.some.injEq] at h
    exact ⟨rec, rfl, h.symm⟩

theorem abortResp_envelope (c : Nat) : IsErrEnvelope (abortResp c) := by
  rw [abortResp]
  split_ifs <;> exact ⟨_, rfl⟩

theorem auth_error_envelope (e : AuthFailure) : IsErrEnvelope (auth_error e) :=
  ⟨e.desc, rfl⟩

theorem findDrink_id {l : List Drink} {i : Nat} {d : Drink}
    (h : findDrink l i = some d) : d.id = i := by
  have := List.find?_some h
  simpa using this

theorem isSeqOfObjects_recipeToJVal (r : List Ingredient) :
    isSeqOfObjects (some (recipeToJVal r)) = true := by
  rw [recipeToJVal, isSeqOfObjects]
  apply List.all_eq_true.mpr
  intro v hv
  obtain ⟨i, _, hi⟩ := List.mem_map.mp hv
  rw [← hi, ingToJVal]

/-- C1 counterexample: the recipe `[{"color": "blue", "name": "it's", "parts": 1}]`
is a syntactically valid JSON value, and an authorized `POST /drinks` carrying it
succeeds in creating a record — but the stored recipe text (the Python `str` of
the value with every apostrophe replaced by a double quote) no longer
deserializes at all, so the round trip fails (the handler even answers 500
because the long projection raises). -/
theorem C1_counterexample :
    (route_post_drinks (validBearer [permPost])
        ⟨some (.str ['W', 'a', 't', 'e', 'r']),
         some (.arr [.obj [(keyColor, .str ['b', 'l', 'u', 'e']),
           (keyName, .str ['i', 't', apos, 's']),
           (keyParts, .num (Int.ofNat 1))]])⟩
        (Session.clean []) false).sess.committed.map Drink.recipe
      = [normalizeQuotes (pyStr (.arr [.obj [(keyColor, .str ['b', 'l', 'u', 'e']),
          (keyName, .str ['i', 't', apos, 's']), (keyParts, .num (Int.ofNat 1))]]))]
    ∧ parseJson (normalizeQuotes (pyStr (.arr [.obj [(keyColor, .str ['b', 'l', 'u', 'e']),
        (keyName, .str ['i', 't', apos, 's']), (keyParts, .num (Int.ofNat 1))]])))
      = none
    ∧ parseJson (normalizeQuotes (pyStr (.arr [.obj [(keyColor, .str ['b', 'l', 'u', 'e']),
        (keyName, .str ['i', 't', apos, 's']), (keyParts, .num (Int.ofNat 1))]])))
      ≠ some (.arr [.obj [(keyColor, .str ['b', 'l', 'u', 'e']),
          (keyName, .str ['i', 't', apos, 's']), (keyParts, .num (Int.ofNat 1))]]) := by
  refine ⟨rfl, rfl, ?_⟩
  intro hcontra
  rw [show parseJson (normalizeQuotes (pyStr (.arr [.obj [(keyColor, .str ['b', 'l', 'u', 'e']),
    (keyName, .str ['i', 't', apos, 's']), (keyParts, .num (Int.ofNat 1))]]))) = none
    from rfl] at hcontra
  cases hcontra

/-- C1 (amended): for every recipe that is an array of `{color, name, parts}`
objects in that key order, whose strings are printable and free of apostrophes,
double quotes and backslashes, and whose `parts` are nonnegative integers, an
authorized successful `POST /drinks` stores a text that deserializes back to
exactly the posted value, and the response's long projection reproduces that
recipe verbatim. -/
theorem C1_roundtrip_plain_recipes
    (r : List Ingredient) (t : Option JVal) (sess : Session) (ps : List Str)
    (hgood : goodRecipe r = true) (hps : permPost ∈ ps) :
    (route_post_drinks (validBearer ps) ⟨t, some (recipeToJVal r)⟩ sess false).resp
        = ⟨200, .obj [(keySuccess, .bool true), (keyDrinks,
            .arr [.obj [(keyId, .num (Int.ofNat (nextId sess.pending))),
              (keyTitle, t.getD .null), (keyRecipe, recipeToJVal r)]])]⟩
    ∧ (route_post_drinks (validBearer ps) ⟨t, some (recipeToJVal r)⟩ sess false).sess.committed
        = sess.pending ++ [⟨nextId sess.pending, t.getD .null,
            normalizeQuotes (pyStr (recipeToJVal r))⟩]
    ∧ parseJson (normalizeQuotes (pyStr (recipeToJVal r))) = some (recipeToJVal r) := by
  have hparse : parseJson (normalizeQuotes (pyStr (recipeToJVal r))) = some (recipeToJVal r) := by
    rw [normalizeQuotes_encRecipe hgood]
    exact parseJson_encRecipe hgood
  have hlong : Drink.long ⟨nextId sess.pending, t.getD .null,
      normalizeQuotes (pyStr (recipeToJVal r))⟩
      = some (.obj [(keyId, .num (Int.ofNat (nextId sess.pending))),
          (keyTitle, t.getD .null), (keyRecipe, recipeToJVal r)]) := by
    rw [Drink.long]
    rw [show (⟨nextId sess.pending, t.getD .null,
      normalizeQuotes (pyStr (recipeToJVal r))⟩ : Drink).recipe
      = normalizeQuotes (pyStr (recipeToJVal r)) from rfl, hparse]
  refine ⟨?_, ?_, hparse⟩ <;>
    simp only [route_post_drinks, requires_auth_db, checkAuth_validBearer hps,
      post_private_long_drink, Option.getD_some, hlong, Bool.false_eq_true, if_false]

/-- C1 witness: the round-trip theorem applied to the concrete recipe
`[{"color": "blue", "name": "water", "parts": 1}]` posted to an empty store. -/
theorem C1_roundtrip_plain_recipes_witness :
    goodRecipe [⟨['b', 'l', 'u', 'e'], ['w', 'a', 't', 'e', 'r'], 1⟩] = true
    ∧ permPost ∈ [permPost]
    ∧ parseJson (normalizeQuotes (pyStr
        (recipeToJVal [⟨['b', 'l', 'u', 'e'], ['w', 'a', 't', 'e', 'r'], 1⟩])))
      = some (recipeToJVal [⟨['b', 'l', 'u', 'e'], ['w', 'a', 't', 'e', 'r'], 1⟩]) :=
  ⟨by decide, List.mem_singleton.mpr rfl,
    (C1_roundtrip_plain_recipes [⟨['b', 'l', 'u', 'e'], ['w', 'a', 't', 'e', 'r'], 1⟩]
      (some (.str ['W'])) (Session.clean []) [permPost] (by decide)
      (List.mem_singleton.mpr rfl)).2.2⟩

/-- C2: PATCH is frame-preserving per field.  Every stored recipe is apostrophe
free (each write stores a `normalizeQuotes` image, first conjunct), and for such
records: a PATCH supplying only `title` rewrites the row with the recipe text
unchanged, and a PATCH supplying only `recipe` rewrites the row with the title
unchanged. -/
theorem C2_patch_frame :
    (∀ s : Str, noApos (normalizeQuotes s) = true)
    ∧ (∀ (i : Nat) (sess : Session) (d : Drink) (t : JVal),
        findDrink sess.pending i = some d → noApos d.recipe = true →
        (patch_private_long_drink ⟨some t, none⟩ (natDigits i) sess false false).sess.committed
          = updateDrink sess.pending ⟨d.id, t, d.recipe⟩)
    ∧ (∀ (i : Nat) (sess : Session) (d : Drink) (v : JVal),
        findDrink sess.pending i = some d →
        (patch_private_long_drink ⟨none, some v⟩ (natDigits i) sess false false).sess.committed
          = updateDrink sess.pending ⟨d.id, d.title, normalizeQuotes (pyStr v)⟩) := by
  refine ⟨noApos_normalizeQuotes, ?_, ?_⟩
  · intro i sess d t hfind hnoap
    simp only [patch_private_long_drink, Bool.false_eq_true, if_false, parseId_natDigits,
      Option.some_bind, hfind, Option.getD_some]
    rw [normalizeQuotes_of_noApos hnoap]
    cases hl : Drink.long ⟨d.id, t, d.recipe⟩ <;> simp [hl]
  · intro i sess d v hfind
    simp only [patch_private_long_drink, Bool.false_eq_true, if_false, parseId_natDigits,
      Option.some_bind, hfind, Option.getD_some]
    cases hl : Drink.long ⟨d.id, d.title, normalizeQuotes (pyStr v)⟩ <;> simp [hl]

/-- C2 witness: patching record 1 of a one-record store with only a title keeps
its recipe, and with only a recipe keeps its title. -/
theorem C2_patch_frame_witness :
    (patch_private_long_drink ⟨some (.str ['T']), none⟩ (natDigits 1)
        (Session.clean [⟨1, .str ['x'], ['4', '2']⟩]) false false).sess.committed
      = [⟨1, .str ['T'], ['4', '2']⟩]
    ∧ (patch_private_long_drink ⟨none, some (.num (Int.ofNat 7))⟩ (natDigits 1)
        (Session.clean [⟨1, .str ['x'], ['4', '2']⟩]) false false).sess.committed
      = [⟨1, .str ['x'], ['7']⟩] := by
  constructor
  · rw [C2_patch_frame.2.1 1 (Session.clean [⟨1, .str ['x'], ['4', '2']⟩])
      ⟨1, .str ['x'], ['4', '2']⟩ (.str ['T']) rfl (by decide)]
    rfl
  · rw [C2_patch_frame.2.2 1 (Session.clean [⟨1, .str ['x'], ['4', '2']⟩])
      ⟨1, .str ['x'], ['4', '2']⟩ (.num (Int.ofNat 7)) rfl]
    rfl

/-- C3 counterexample: an authorized `POST /drinks` with recipe `42` (valid
JSON, but not a sequence of objects) succeeds with a 200 response and stores
the text `42`, which deserializes to a number — so the stated store invariant
does not hold after every successful POST: nothing validates the shape. -/
theorem C3_counterexample :
    (route_post_drinks (validBearer [permPost])
        ⟨some (.str ['W']), some (.num (Int.ofNat 42))⟩ (Session.clean []) false).resp.status
      = 200
    ∧ (route_post_drinks (validBearer [permPost])
        ⟨some (.str ['W']), some (.num (Int.ofNat 42))⟩
          (Session.clean []) false).sess.committed.map Drink.recipe = [['4', '2']]
    ∧ isSeqOfObjects (parseJson ['4', '2']) = false :=
  ⟨rfl, rfl, rfl⟩

/-- C3 (amended): when the supplied recipe is a well-formed ingredient array
(printable quote-free strings), every record in the store after a POST or a
PATCH onto a clean session either was already in the store or has a recipe
deserializing to a sequence of objects; for other inputs the code enforces no
such invariant (see the counterexample). -/
theorem C3_stored_recipe_shape :
    (∀ (r : List Ingredient) (t : Option JVal) (l : List Drink),
      goodRecipe r = true →
      ∀ dd ∈ (post_private_long_drink ⟨t, some (recipeToJVal r)⟩
          (Session.clean l) false).sess.committed,
        dd ∈ l ∨ isSeqOfObjects (parseJson dd.recipe) = true)
    ∧ (∀ (r : List Ingredient) (t : Option JVal) (i : Nat) (l : List Drink),
      goodRecipe r = true →
      ∀ dd ∈ (patch_private_long_drink ⟨t, some (recipeToJVal r)⟩ (natDigits i)
          (Session.clean l) false false).sess.committed,
        dd ∈ l ∨ isSeqOfObjects (parseJson dd.recipe) = true) := by
  have hseq : ∀ r : List Ingredient, goodRecipe r = true →
      isSeqOfObjects (parseJson (normalizeQuotes (pyStr (recipeToJVal r)))) = true := by
    intro r h
    rw [normalizeQuotes_encRecipe h, parseJson_encRecipe h]
    exact isSeqOfObjects_recipeToJVal r
  constructor
  · intro r t l hgood dd hdd
    simp only [post_private_long_drink, Bool.false_eq_true, if_false, Option.getD_some,
      Session.clean] at hdd
    have hdd2 : dd ∈ l ++ [(⟨nextId l, t.getD .null,
        normalizeQuotes (pyStr (recipeToJVal r))⟩ : Drink)] := by
      cases hl : Drink.long ⟨nextId l, t.getD .null,
          normalizeQuotes (pyStr (recipeToJVal r))⟩ <;>
        rw [hl] at hdd <;> exact hdd
    rcases List.mem_append.mp hdd2 with hmem | hmem
    · exact Or.inl hmem
    · rcases List.mem_singleton.mp hmem with rfl_eq
      subst rfl_eq
      exact Or.inr (hseq r hgood)
  · intro r t i l hgood dd hdd
    simp only [patch_private_long_drink, Bool.false_eq_true, if_false, parseId_natDigits,
      Option.some_bind, Session.clean] at hdd
    cases hfind : findDrink l i with
    | none =>
      rw [hfind] at hdd
      exact Or.inl hdd
    | some d =>
      rw [hfind] at hdd
      simp only [] at hdd
      have hdd2 : dd ∈ updateDrink l ⟨d.id, t.getD d.title,
          normalizeQuotes (pyStr (recipeToJVal r))⟩ := by
        cases hl : Drink.long ⟨d.id, t.getD d.title,
            normalizeQuotes (pyStr (recipeToJVal r))⟩ <;>
          rw [hl] at hdd <;> exact hdd
      rw [updateDrink] at hdd2
      obtain ⟨e, hel, hee⟩ := List.mem_map.mp hdd2
      by_cases hid : e.id = d.id
      · rw [if_pos hid] at hee
        rw [← hee]
        exact Or.inr (hseq r hgood)
      · rw [if_neg hid] at hee
        rw [← hee]
        exact Or.inl hel

/-- C3 witness: the amended invariant at the concrete recipe
`[{"color": "c", "name": "n", "parts": 2}]` posted to an empty store. -/
theorem C3_stored_recipe_shape_witness :
    goodRecipe [⟨['c'], ['n'], 2⟩] = true
    ∧ isSeqOfObjects (parseJson (normalizeQuotes (pyStr
        (recipeToJVal [⟨['c'], ['n'], 2⟩])))) = true := by
  refine ⟨by decide, ?_⟩
  have h := C3_stored_recipe_shape.1 [⟨['c'], ['n'], 2⟩] none [] (by decide)
    ⟨1, .null, normalizeQuotes (pyStr (recipeToJVal [⟨['c'], ['n'], 2⟩]))⟩
    (List.mem_singleton.mpr rfl)
  rcases h with hmem | hgoal
  · cases hmem
  · exact hgoal

/-- C4: on an id with no matching row, an authorized PATCH and an authorized
DELETE (with body parsed and the store reachable) both answer 404 and leave the
persisted store unchanged (the failed transaction is rolled back). -/
theorem C4_missing_id_404 (body : ReqBody) (i : Nat) (sess : Session)
    (hfind : findDrink sess.pending i = none) :
    (patch_private_long_drink body (natDigits i) sess false false).resp.status = 404
    ∧ (patch_private_long_drink body (natDigits i) sess false false).sess.committed
        = sess.committed
    ∧ (delete_private_drink (natDigits i) sess false false).resp.status = 404
    ∧ (delete_private_drink (natDigits i) sess false false).sess.committed
        = sess.committed := by
  refine ⟨?_, ?_, ?_, ?_⟩ <;>
    simp [patch_private_long_drink, delete_private_drink, parseId_natDigits,
      Option.some_bind, hfind, abortResp, not_found, flaskDesc]

/-- C4 witness: PATCH and DELETE of id 5 on an empty store both answer 404. -/
theorem C4_missing_id_404_witness :
    (patch_private_long_drink ⟨none, none⟩ (natDigits 5)
        (Session.clean []) false false).resp.status = 404
    ∧ (delete_private_drink (natDigits 5) (Session.clean []) false false).resp.status
        = 404 :=
  ⟨(C4_missing_id_404 ⟨none, none⟩ 5 (Session.clean []) rfl).1,
   (C4_missing_id_404 ⟨none, none⟩ 5 (Session.clean []) rfl).2.2.1⟩

/-- C5: an authorized DELETE of an existing id answers 200 with
`{success: true, delete: <the id>}` (the handler echoes the path segment),
removes the row from the persisted store, and any subsequent successful
`GET /drinks` listing contains no entry with that id. -/
theorem C5_delete_existing (i : Nat) (sess : Session) (d : Drink)
    (hfind : findDrink sess.pending i = some d) :
    (delete_private_drink (natDigits i) sess false false).resp.status = 200
    ∧ (delete_private_drink (natDigits i) sess false false).resp.body
        = .obj [(keySuccess, .bool true), (keyDelete, .str (natDigits i))]
    ∧ (delete_private_drink (natDigits i) sess false false).sess.committed
        = sess.pending.filter (fun e => e.id ≠ i)
    ∧ (∀ e ∈ (delete_private_drink (natDigits i) sess false false).sess.committed,
        e.id ≠ i)
    ∧ (∀ entries,
        get_public_short_drinks
            (delete_private_drink (natDigits i) sess false false).sess.committed false
          = jsonDrinksOk entries →
        ∀ v ∈ entries, idField v ≠ some (.num (Int.ofNat i))) := by
  have hdid : d.id = i := findDrink_id hfind
  have hsess : (delete_private_drink (natDigits i) sess false false).sess.committed
      = sess.pending.filter (fun e => e.id ≠ i) := by
    simp only [delete_private_drink, Bool.false_eq_true, if_false, parseId_natDigits,
      Option.some_bind, hfind, hdid]
  have hids : ∀ e ∈ (delete_private_drink (natDigits i) sess false false).sess.committed,
      e.id ≠ i := by
    intro e he
    rw [hsess] at he
    have := List.mem_filter.mp he
    simpa using this.2
  refine ⟨?_, ?_, hsess, hids, ?_⟩
  · simp only [delete_private_drink, Bool.false_eq_true, if_false, parseId_natDigits,
      Option.some_bind, hfind]
  · simp only [delete_private_drink, Bool.false_eq_true, if_false, parseId_natDigits,
      Option.some_bind, hfind]
  · intro entries heq v hv
    rw [get_public_short_drinks] at heq
    simp only [Bool.false_eq_true, if_false] at heq
    cases hmap : optMap Drink.short
        (delete_private_drink (natDigits i) sess false false).sess.committed with
    | none =>
      rw [hmap] at heq
      have hst := congrArg Response.status heq
      simp [abortResp, internal_server_error, jsonDrinksOk] at hst
    | some es =>
      rw [hmap] at heq
      have hbody := congrArg Response.body heq
      simp only [jsonDrinksOk, JVal.obj.injEq, List.cons.injEq, Prod.mk.injEq,
        JVal.arr.injEq, and_true, true_and] at hbody
      rw [← hbody] at hv
      obtain ⟨dd, hddmem, hshort⟩ := optMap_mem hmap v hv
      obtain ⟨items, hv2, _⟩ := short_shape hshort
      rw [hv2]
      intro hcontra
      simp only [idField, objLookup, if_pos rfl, if_true, Option.some.injEq,
        JVal.num.injEq] at hcontra
      exact hids dd hddmem (Int.ofNat.inj hcontra)

/-- C5 witness: deleting id 1 from a one-record store answers 200 with the
echoed id, and the store no longer contains it. -/
theorem C5_delete_existing_witness :
    (delete_private_drink (natDigits 1)
        (Session.clean [⟨1, .str ['x'], ['4', '2']⟩]) false false).resp.status = 200
    ∧ (delete_private_drink (natDigits 1)
        (Session.clean [⟨1, .str ['x'], ['4', '2']⟩]) false false).resp.body
      = .obj [(keySuccess, .bool true), (keyDelete, .str (natDigits 1))]
    ∧ (delete_private_drink (natDigits 1)
        (Session.clean [⟨1, .str ['x'], ['4', '2']⟩]) false false).sess.committed
      = [] :=
  ⟨(C5_delete_existing 1 (Session.clean [⟨1, .str ['x'], ['4', '2']⟩])
      ⟨1, .str ['x'], ['4', '2']⟩ rfl).1,
   (C5_delete_existing 1 (Session.clean [⟨1, .str ['x'], ['4', '2']⟩])
      ⟨1, .str ['x'], ['4', '2']⟩ rfl).2.1,
   by
    rw [(C5_delete_existing 1 (Session.clean [⟨1, .str ['x'], ['4', '2']⟩])
      ⟨1, .str ['x'], ['4', '2']⟩ rfl).2.2.1]
    rfl⟩

/-- C6: the `requires_auth` gate around every protected route answers 401 with
`success: false` whenever the request carries no verified token with a
permissions claim, and 403 with `success: false` whenever the token verifies
but its permission set lacks the route's required permission — for read-only
and mutating handlers alike, whatever the wrapped handler would do. -/
theorem C6_auth_failures (perm : Str) (h : AuthzHeader) (k : List Str → Response)
    (sess : Session) (kd : List Str → HandlerResult) :
    (hasValidAuth h = false →
      (requires_auth perm h k).status = 401
      ∧ successField (requires_auth perm h k) = some (.bool false)
      ∧ (requires_auth_db perm h sess kd).resp.status = 401
      ∧ successField (requires_auth_db perm h sess kd).resp = some (.bool false))
    ∧ (∀ t ps, h = .bearer t → t.sigValid = true → t.claimsValid = true →
        t.permsClaim = some ps → perm ∉ ps →
      (requires_auth perm h k).status = 403
      ∧ successField (requires_auth perm h k) = some (.bool false)
      ∧ (requires_auth_db perm h sess kd).resp.status = 403
      ∧ successField (requires_auth_db perm h sess kd).resp = some (.bool false)) := by
  constructor
  · intro hva
    cases h with
    | missing => exact ⟨rfl, rfl, rfl, rfl⟩
    | malformed => exact ⟨rfl, rfl, rfl, rfl⟩
    | bearer t =>
      obtain ⟨sv, cv, pc⟩ := t
      cases sv with
      | false => exact ⟨rfl, rfl, rfl, rfl⟩
      | true =>
        cases cv with
        | false => exact ⟨rfl, rfl, rfl, rfl⟩
        | true =>
          cases pc with
          | none => exact ⟨rfl, rfl, rfl, rfl⟩
          | some ps => simp [hasValidAuth] at hva
  · intro t ps hh hsv hcv hpc hnotin
    subst hh
    obtain ⟨sv, cv, pc⟩ := t
    simp only at hsv hcv hpc
    subst hsv; subst hcv; subst hpc
    have hc : checkAuth (.bearer ⟨true, true, some ps⟩) perm
        = .error .insufficientPermission := by
      simp [checkAuth, hnotin]
    refine ⟨?_, ?_, ?_, ?_⟩ <;>
      simp only [requires_auth, requires_auth_db, hc] <;> rfl

/-- C6 witness: with no header the gate answers 401; with a verified token
lacking `post:drinks` it answers 403 — both with `success: false`. -/
theorem C6_auth_failures_witness :
    (requires_auth permPost .missing (fun _ => jsonDrinksOk [])).status = 401
    ∧ (requires_auth permPost (.bearer ⟨true, true, some []⟩)
        (fun _ => jsonDrinksOk [])).status = 403
    ∧ successField (requires_auth permPost (.bearer ⟨true, true, some []⟩)
        (fun _ => jsonDrinksOk [])) = some (.bool false) := by
  refine ⟨?_, ?_, ?_⟩
  · exact ((C6_auth_failures permPost .missing (fun _ => jsonDrinksOk [])
      (Session.clean []) (fun _ => ⟨jsonDrinksOk [], Session.clean [], []⟩)).1 rfl).1
  · exact ((C6_auth_failures permPost (.bearer ⟨true, true, some []⟩)
      (fun _ => jsonDrinksOk []) (Session.clean [])
      (fun _ => ⟨jsonDrinksOk [], Session.clean [], []⟩)).2 ⟨true, true, some []⟩ []
      rfl rfl rfl rfl (by simp)).1
  · exact ((C6_auth_failures permPost (.bearer ⟨true, true, some []⟩)
      (fun _ => jsonDrinksOk []) (Session.clean [])
      (fun _ => ⟨jsonDrinksOk [], Session.clean [], []⟩)).2 ⟨true, true, some []⟩ []
      rfl rfl rfl rfl (by simp)).2.1

theorem envelope_of_abort {r : Response} {c : Nat} (h : r = abortResp c) :
    IsErrEnvelope r := h ▸ abortResp_envelope c

theorem envelope_of_auth {r : Response} {e : AuthFailure} (h : r = auth_error e) :
    IsErrEnvelope r := h ▸ auth_error_envelope e

/-- C7: every non-200 response of every route — the public listing, the
detail listing, POST, PATCH and DELETE, across all authorization outcomes,
lookup outcomes and store failures — carries the uniform envelope
`{"success": false, "error": <its own status>, "message": <a string>}`. -/
theorem C7_error_envelope :
    (∀ (sess : Session) (qf : Bool),
      (route_get_drinks sess qf).status ≠ 200 →
        IsErrEnvelope (route_get_drinks sess qf))
    ∧ (∀ (h : AuthzHeader) (sess : Session) (qf : Bool),
      (route_get_drinks_detail h sess qf).status ≠ 200 →
        IsErrEnvelope (route_get_drinks_detail h sess qf))
    ∧ (∀ (h : AuthzHeader) (body : ReqBody) (sess : Session) (cr : Bool),
      (route_post_drinks h body sess cr).resp.status ≠ 200 →
        IsErrEnvelope (route_post_drinks h body sess cr).resp)
    ∧ (∀ (h : AuthzHeader) (body : ReqBody) (did : Str) (sess : Session) (qr cr : Bool),
      (route_patch_drink h body did sess qr cr).resp.status ≠ 200 →
        IsErrEnvelope (route_patch_drink h body did sess qr cr).resp)
    ∧ (∀ (h : AuthzHeader) (did : Str) (sess : Session) (qr cr : Bool),
      (route_delete_drink h did sess qr cr).resp.status ≠ 200 →
        IsErrEnvelope (route_delete_drink h did sess qr cr).resp) := by
  refine ⟨?_, ?_, ?_, ?_, ?_⟩
  · intro sess qf hne
    cases qf with
    | true => exact abortResp_envelope 500
    | false =>
      cases hmap : optMap Drink.short sess.committed with
      | some es =>
        exact absurd (by simp [route_get_drinks, get_public_short_drinks, hmap,
          jsonDrinksOk]) hne
      | none =>
        refine envelope_of_abort (c := 500) ?_
        simp [route_get_drinks, get_public_short_drinks, hmap]
  · intro h sess qf hne
    cases hc : checkAuth h permGetDetail with
    | error e =>
      refine envelope_of_auth (e := e) ?_
      simp [route_get_drinks_detail, requires_auth, hc]
    | ok ps =>
      have hroute : route_get_drinks_detail h sess qf
          = get_private_short_drinks sess.committed qf := by
        simp [route_get_drinks_detail, requires_auth, hc]
      rw [hroute] at hne ⊢
      cases qf with
      | true => exact abortResp_envelope 500
      | false =>
        cases hmap : optMap Drink.long sess.committed with
        | some es =>
          exact absurd (by simp [get_private_short_drinks, hmap, jsonDrinksOk]) hne
        | none =>
          refine envelope_of_abort (c := 500) ?_
          simp [get_private_short_drinks, hmap]
  · intro h body sess cr hne
    cases hc : checkAuth h permPost with
    | error e =>
      refine envelope_of_auth (e := e) ?_
      simp [route_post_drinks, requires_auth_db, hc]
    | ok ps =>
      have hroute : route_post_drinks h body sess cr
          = post_private_long_drink body sess cr := by
        simp [route_post_drinks, requires_auth_db, hc]
      rw [hroute] at hne ⊢
      rw [post_private_long_drink] at hne ⊢
      cases cr with
      | true => exact abortResp_envelope 500
      | false =>
        simp only [Bool.false_eq_true, if_false] at hne ⊢
        cases hl : Drink.long ⟨nextId sess.pending, body.title?.getD .null,
            normalizeQuotes (pyStr (body.recipe?.getD .null))⟩ with
        | some entry => rw [hl] at hne; exact absurd rfl hne
        | none => exact abortResp_envelope 500
  · intro h body did sess qr cr hne
    cases hc : checkAuth h permPatch with
    | error e =>
      refine envelope_of_auth (e := e) ?_
      simp [route_patch_drink, requires_auth_db, hc]
    | ok ps =>
      have hroute : route_patch_drink h body did sess qr cr
          = patch_private_long_drink body did sess qr cr := by
        simp [route_patch_drink, requires_auth_db, hc]
      rw [hroute] at hne ⊢
      rw [patch_private_long_drink] at hne ⊢
      cases qr with
      | true => exact abortResp_envelope 500
      | false =>
        simp only [Bool.false_eq_true, if_false] at hne ⊢
        cases hfind : (parseId did).bind (findDrink sess.pending) with
        | none => exact abortResp_envelope 404
        | some d =>
          rw [hfind] at hne
          simp only [] at hne ⊢
          cases cr with
          | true => exact abortResp_envelope 500
          | false =>
            simp only [Bool.false_eq_true, if_false] at hne ⊢
            cases hl : Drink.long ⟨d.id, body.title?.getD d.title,
                normalizeQuotes (match body.recipe? with
                  | some v => pyStr v
                  | none => d.recipe)⟩ with
            | some entry => rw [hl] at hne; exact absurd rfl hne
            | none => exact abortResp_envelope 500
  · intro h did sess qr cr hne
    cases hc : checkAuth h permDelete with
    | error e =>
      refine envelope_of_auth (e := e) ?_
      simp [route_delete_drink, requires_auth_db, hc]
    | ok ps =>
      have hroute : route_delete_drink h did sess qr cr
          = delete_private_drink did sess qr cr := by
        simp [route_delete_drink, requires_auth_db, hc]
      rw [hroute] at hne ⊢
      rw [delete_private_drink] at hne ⊢
      cases qr with
      | true => exact abortResp_envelope 500
      | false =>
        simp only [Bool.false_eq_true, if_false] at hne ⊢
        cases hfind : (parseId did).bind (findDrink sess.pending) with
        | none => exact abortResp_envelope 404
        | some d =>
          rw [hfind] at hne
          simp only [] at hne ⊢
          cases cr with
          | true => exact abortResp_envelope 500
          | false => exact absurd rfl hne

/-- C7 witness: the envelope property for a failing public GET (store failure)
and for an unauthorized POST. -/
theorem C7_error_envelope_witness :
    IsErrEnvelope (route_get_drinks (Session.clean []) true)
    ∧ IsErrEnvelope (route_post_drinks .missing ⟨none, none⟩ (Session.clean []) false).resp :=
  ⟨C7_error_envelope.1 (Session.clean []) true (by decide),
   C7_error_envelope.2.2.1 .missing ⟨none, none⟩ (Session.clean []) false (by decide)⟩

/-- C8: for the three mutating handlers, every store-operation failure path —
a failing query, a failing commit, or a missing row — rolls the transaction
back (the persisted store is unchanged and the trace is exactly rollback then
close, the response being produced after the rollback), and on every path,
success or failure, the session close is the final event. -/
theorem C8_transactionality :
    (∀ (body : ReqBody) (sess : Session),
      ((post_private_long_drink body sess true).sess.committed = sess.committed
        ∧ (post_private_long_drink body sess true).events = [.rollback, .close])
      ∧ ∀ cr, ((post_private_long_drink body sess cr).events).getLast? = some .close)
    ∧ (∀ (body : ReqBody) (did : Str) (sess : Session) (qr cr : Bool),
      ((qr = true ∨ cr = true ∨ (parseId did).bind (findDrink sess.pending) = none) →
        (patch_private_long_drink body did sess qr cr).sess.committed = sess.committed
        ∧ (patch_private_long_drink body did sess qr cr).events = [.rollback, .close])
      ∧ ((patch_private_long_drink body did sess qr cr).events).getLast? = some .close)
    ∧ (∀ (did : Str) (sess : Session) (qr cr : Bool),
      ((qr = true ∨ cr = true ∨ (parseId did).bind (findDrink sess.pending) = none) →
        (delete_private_drink did sess qr cr).sess.committed = sess.committed
        ∧ (delete_private_drink did sess qr cr).events = [.rollback, .close])
      ∧ ((delete_private_drink did sess qr cr).events).getLast? = some .close) := by
  refine ⟨?_, ?_, ?_⟩
  · intro body sess
    refine ⟨⟨rfl, rfl⟩, ?_⟩
    intro cr
    cases cr with
    | true => rfl
    | false =>
      rw [post_private_long_drink]
      simp only [Bool.false_eq_true, if_false]
      cases Drink.long ⟨nextId sess.pending, body.title?.getD .null,
          normalizeQuotes (pyStr (body.recipe?.getD .null))⟩ <;> rfl
  · intro body did sess qr cr
    constructor
    · intro hfail
      cases qr with
      | true => exact ⟨rfl, rfl⟩
      | false =>
        rw [patch_private_long_drink]
        simp only [Bool.false_eq_true, if_false]
        rcases hfail with hq | hcr | hlk
        · cases hq
        · subst hcr
          cases hlk2 : (parseId did).bind (findDrink sess.pending) with
          | none => exact ⟨rfl, rfl⟩
          | some d => exact ⟨rfl, rfl⟩
        · rw [hlk]
          exact ⟨rfl, rfl⟩
    · cases qr with
      | true => rfl
      | false =>
        rw [patch_private_long_drink]
        simp only [Bool.false_eq_true, if_false]
        cases (parseId did).bind (findDrink sess.pending) with
        | none => rfl
        | some d =>
          cases cr with
          | true => rfl
          | false =>
            simp only [Bool.false_eq_true, if_false]
            cases Drink.long ⟨d.id, body.title?.getD d.title,
                normalizeQuotes (match body.recipe? with
                  | some v => pyStr v
                  | none => d.recipe)⟩ <;> rfl
  · intro did sess qr cr
    constructor
    · intro hfail
      cases qr with
      | true => exact ⟨rfl, rfl⟩
      | false =>
        rw [delete_private_drink]
        simp only [Bool.false_eq_true, if_false]
        rcases hfail with hq | hcr | hlk
        · cases hq
        · subst hcr
          cases hlk2 : (parseId did).bind (findDrink sess.pending) with
          | none => exact ⟨rfl, rfl⟩
          | some d => exact ⟨rfl, rfl⟩
        · rw [hlk]
          exact ⟨rfl, rfl⟩
    · cases qr with
      | true => rfl
      | false =>
        rw [delete_private_drink]
        simp only [Bool.false_eq_true, if_false]
        cases (parseId did).bind (findDrink sess.pending) with
        | none => rfl
        | some d =>
          cases cr with
          | true => rfl
          | false => rfl

/-- C8 witness: a POST onto an empty store whose commit fails leaves the store
empty with trace rollback-then-close; a successful DELETE's last event is the
session close. -/
theorem C8_transactionality_witness :
    (post_private_long_drink ⟨none, none⟩ (Session.clean []) true).sess.committed = []
    ∧ (post_private_long_drink ⟨none, none⟩ (Session.clean []) true).events
        = [.rollback, .close]
    ∧ ((delete_private_drink (natDigits 1)
        (Session.clean [⟨1, .str ['x'], ['4', '2']⟩]) false false).events).getLast?
      = some .close :=
  ⟨(C8_transactionality.1 ⟨none, none⟩ (Session.clean [])).1.1,
   (C8_transactionality.1 ⟨none, none⟩ (Session.clean [])).1.2,
   (C8_transactionality.2.2 (natDigits 1)
     (Session.clean [⟨1, .str ['x'], ['4', '2']⟩]) false false).2⟩

/-- C9 counterexample: a store may hold a recipe whose entries lack `name`
(nothing validates writes), and an authorized `GET /drinks-detail` then answers
200 with that entry as-is — the long projection returns the deserialized stored
recipe verbatim and does not guarantee a `name` field. -/
theorem C9_counterexample :
    (route_get_drinks_detail (validBearer [permGetDetail])
        (Session.clean [⟨1, .str ['x'],
          normalizeQuotes (pyStr (.arr [.obj [(keyColor, .str ['c']),
            (keyParts, .num (Int.ofNat 1))]]))⟩]) false).status = 200
    ∧ (route_get_drinks_detail (validBearer [permGetDetail])
        (Session.clean [⟨1, .str ['x'],
          normalizeQuotes (pyStr (.arr [.obj [(keyColor, .str ['c']),
            (keyParts, .num (Int.ofNat 1))]]))⟩]) false).body
      = .obj [(keySuccess, .bool true), (keyDrinks, .arr [.obj [
          (keyId, .num (Int.ofNat 1)), (keyTitle, .str ['x']),
          (keyRecipe, .arr [.obj [(keyColor, .str ['c']),
            (keyParts, .num (Int.ofNat 1))]])]])]
    ∧ hasKey keyName (.obj [(keyColor, .str ['c']), (keyParts, .num (Int.ofNat 1))])
      = false :=
  ⟨rfl, rfl, rfl⟩

/-- C9 (amended): in every successful `GET /drinks` listing, each recipe entry
is exactly a `{color, parts}` object — never carrying `name`; and in every
successful `GET /drinks-detail` listing over a store whose deserialized recipe
entries all carry `name`, each returned recipe entry carries `name` (the long
projection reproduces the stored entries verbatim, so `name` is present exactly
when it was stored). -/
theorem C9_projections :
    (∀ (store : List Drink) (qf : Bool) (entries : List JVal) (v : JVal)
        (items : List JVal) (it : JVal),
      get_public_short_drinks store qf = jsonDrinksOk entries →
      v ∈ entries → recipeField v = some (.arr items) → it ∈ items →
      hasKey keyName it = false
        ∧ ∃ c p, it = .obj [(keyColor, c), (keyParts, p)])
    ∧ (∀ (store : List Drink) (entries : List JVal) (v : JVal)
        (items : List JVal) (it : JVal),
      (∀ d ∈ store, ∀ xs, parseJson d.recipe = some (.arr xs) →
        ∀ x ∈ xs, hasKey keyName x = true) →
      get_private_short_drinks store false = jsonDrinksOk entries →
      v ∈ entries → recipeField v = some (.arr items) → it ∈ items →
      hasKey keyName it = true) := by
  constructor
  · intro store qf entries v items it heq hv hrec hit
    cases qf with
    | true =>
      have hst := congrArg Response.status heq
      simp [get_public_short_drinks, abortResp, internal_server_error, jsonDrinksOk] at hst
    | false =>
      rw [get_public_short_drinks] at heq
      simp only [Bool.false_eq_true, if_false] at heq
      cases hmap : optMap Drink.short store with
      | none =>
        rw [hmap] at heq
        have hst := congrArg Response.status heq
        simp [abortResp, internal_server_error, jsonDrinksOk] at hst
      | some es =>
        rw [hmap] at heq
        have hbody := congrArg Response.body heq
        simp only [jsonDrinksOk, JVal.obj.injEq, List.cons.injEq, Prod.mk.injEq,
          JVal.arr.injEq, and_true, true_and] at hbody
        rw [← hbody] at hv
        obtain ⟨dd, _, hshort⟩ := optMap_mem hmap v hv
        obtain ⟨items2, hv2, hitems2⟩ := short_shape hshort
        rw [hv2] at hrec
        simp only [recipeField, objLookup, if_true, if_false] at hrec
        have : items2 = items := by
          have h2 := Option.some.inj hrec
          exact JVal.arr.inj h2
        rw [← this] at hit
        obtain ⟨c, p, hshape⟩ := hitems2 it hit
        refine ⟨?_, c, p, hshape⟩
        rw [hshape]
        rfl
  · intro store entries v items it hstore heq hv hrec hit
    rw [get_private_short_drinks] at heq
    simp only [Bool.false_eq_true, if_false] at heq
    cases hmap : optMap Drink.long store with
    | none =>
      rw [hmap] at heq
      have hst := congrArg Response.status heq
      simp [abortResp, internal_server_error, jsonDrinksOk] at hst
    | some es =>
      rw [hmap] at heq
      have hbody := congrArg Response.body heq
      simp only [jsonDrinksOk, JVal.obj.injEq, List.cons.injEq, Prod.mk.injEq,
        JVal.arr.injEq, and_true, true_and] at hbody
      rw [← hbody] at hv
      obtain ⟨dd, hddmem, hlong⟩ := optMap_mem hmap v hv
      obtain ⟨rec, hparse, hv2⟩ := long_shape hlong
      rw [hv2] at hrec
      simp only [recipeField, objLookup, if_true, if_false] at hrec
      have hrecArr : rec = .arr items := Option.some.inj hrec
      rw [hrecArr] at hparse
      exact hstore dd hddmem items hparse it hit

/-- C9 witness: the projection theorem applied to a concrete one-record store
whose recipe is `[{"color": "c", "name": "n", "parts": 1}]`: the GET /drinks
entry is `{color, parts}` without `name`, and the GET /drinks-detail entry
keeps `name`. -/
theorem C9_projections_witness :
    hasKey keyName (.obj [(keyColor, .str ['c']), (keyParts, .num (Int.ofNat 1))]) = false
    ∧ hasKey keyName (.obj [(keyColor, .str ['c']), (keyName, .str ['n']),
        (keyParts, .num (Int.ofNat 1))]) = true := by
  constructor
  · exact (C9_projections.1
      [⟨1, .str ['x'], normalizeQuotes (pyStr (recipeToJVal [⟨['c'], ['n'], 1⟩]))⟩] false
      [.obj [(keyId, .num (Int.ofNat 1)), (keyTitle, .str ['x']),
        (keyRecipe, .arr [.obj [(keyColor, .str ['c']), (keyParts, .num (Int.ofNat 1))]])]]
      (.obj [(keyId, .num (Int.ofNat 1)), (keyTitle, .str ['x']),
        (keyRecipe, .arr [.obj [(keyColor, .str ['c']), (keyParts, .num (Int.ofNat 1))]])])
      [.obj [(keyColor, .str ['c']), (keyParts, .num (Int.ofNat 1))]]
      (.obj [(keyColor, .str ['c']), (keyParts, .num (Int.ofNat 1))])
      rfl (List.mem_singleton.mpr rfl) rfl (List.mem_singleton.mpr rfl)).1
  · exact C9_projections.2
      [⟨1, .str ['x'], normalizeQuotes (pyStr (recipeToJVal [⟨['c'], ['n'], 1⟩]))⟩]
      [.obj [(keyId, .num (Int.ofNat 1)), (keyTitle, .str ['x']),
        (keyRecipe, .arr [.obj [(keyColor, .str ['c']), (keyName, .str ['n']),
          (keyParts, .num (Int.ofNat 1))]])]]
      (.obj [(keyId, .num (Int.ofNat 1)), (keyTitle, .str ['x']),
        (keyRecipe, .arr [.obj [(keyColor, .str ['c']), (keyName, .str ['n']),
          (keyParts, .num (Int.ofNat 1))]])])
      [.obj [(keyColor, .str ['c']), (keyName, .str ['n']),
        (keyParts, .num (Int.ofNat 1))]]
      (.obj [(keyColor, .str ['c']), (keyName, .str ['n']),
        (keyParts, .num (Int.ofNat 1))])
      (by
        intro d hd xs hxs x hx
        rcases List.mem_singleton.mp hd with rfl_eq
        subst rfl_eq
        rw [show parseJson (Drink.recipe ⟨1, .str ['x'],
            normalizeQuotes (pyStr (recipeToJVal [⟨['c'], ['n'], 1⟩]))⟩)
          = some (.arr [.obj [(keyColor, .str ['c']), (keyName, .str ['n']),
            (keyParts, .num (Int.ofNat 1))]]) from rfl] at hxs
        have hxs2 := JVal.arr.inj (Option.some.inj hxs)
        rw [← hxs2] at hx
        rcases List.mem_singleton.mp hx with rfl_eq2
        subst rfl_eq2
        rfl)
      rfl (List.mem_singleton.mpr rfl) rfl (List.mem_singleton.mpr rfl)

/-- C10: `GET /drinks-detail` never answers 404, for every authorization
state, store and query outcome: a successful query binds the local to a list
(never `None`), and when the query raises the local is unbound, so the `None`
test in the exception handler raises a NameError and the framework answers
500 — the `abort(404)` branch is unreachable. -/
theorem C10_detail_never_404 (h : AuthzHeader) (sess : Session) (qf : Bool) :
    (route_get_drinks_detail h sess qf).status ≠ 404 := by
  cases hc : checkAuth h permGetDetail with
  | error e =>
    have hroute : route_get_drinks_detail h sess qf = auth_error e := by
      simp [route_get_drinks_detail, requires_auth, hc]
    rw [hroute]
    cases e <;> decide
  | ok ps =>
    have hroute : route_get_drinks_detail h sess qf
        = get_private_short_drinks sess.committed qf := by
      simp [route_get_drinks_detail, requires_auth, hc]
    rw [hroute, get_private_short_drinks]
    cases qf with
    | true => exact (by decide : (500 : Nat) ≠ 404)
    | false =>
      simp only [Bool.false_eq_true, if_false]
      cases optMap Drink.long sess.committed with
      | some es => exact (by decide : (200 : Nat) ≠ 404)
      | none => exact (by decide : (500 : Nat) ≠ 404)

/-- C10 witness: the theorem at a concrete unauthenticated request and at a
concrete authorized request over an empty store. -/
theorem C10_detail_never_404_witness :
    (route_get_drinks_detail .missing (Session.clean []) false).status ≠ 404
    ∧ (route_get_drinks_detail (validBearer [permGetDetail])
        (Session.clean []) true).status ≠ 404 :=
  ⟨C10_detail_never_404 .missing (Session.clean []) false,
   C10_detail_never_404 (validBearer [permGetDetail]) (Session.clean []) true⟩
